import Mathlib

/-!
Verification of the multi-key request dispatcher of the baby-bot repository
(src/app.py): credential rotation, per-key and global cooldowns, throttling,
exponential backoff, and the OpenRouter fallback path.

Time is modelled as a natural-number clock carried in the state; sleeps
advance it.  Provider calls are injected as an attempt function from
(round, key index) to an outcome, mirroring the code where each invocation
of the try-block at app.py:198 happens at a unique (round, key index) pair.
Every step of the dispatcher is recorded in an event trace so that claims
about "how many attempts", "which keys were skipped" and "which sleeps
happened" can be stated.
-/

namespace BabyBot

/-- PER_KEY_COOLDOWN = 60 (app.py:50). -/
def PER_KEY_COOLDOWN : Nat := 60

/-- GLOBAL_COOLDOWN = 120 (app.py:51). -/
def GLOBAL_COOLDOWN : Nat := 120

/-- MIN_REQUEST_INTERVAL = 2 (app.py:52). -/
def MIN_REQUEST_INTERVAL : Nat := 2

/-- Outcome of one provider attempt (the try-block at app.py:198-228):
either a response, or an exception whose string representation is kept. -/
inductive AttemptOutcome where
  | success (text : String)
  | failure (msg : String)
deriving Repr, DecidableEq

/-- The injected provider call: round number and key index determine which
invocation of the try-block this is. -/
abbrev AttemptFn := Nat → Nat → AttemptOutcome

/-- The process-wide mutable state of app.py (lines 41-52) plus the clock. -/
structure GeminiState where
  currentKeyIndex : Nat
  keyCooldown : List (Nat × Nat)
  globalCooldownUntil : Nat
  lastRequestTime : Nat
  now : Nat
deriving Repr, DecidableEq

/-- The state at process start (app.py:41-46): index 0, no cooldowns. -/
def initState (now : Nat) : GeminiState :=
  { currentKeyIndex := 0, keyCooldown := [], globalCooldownUntil := 0,
    lastRequestTime := 0, now := now }

/-- Python dict lookup: first entry with the given key. -/
def dictFind : List (Nat × Nat) → Nat → Option Nat
  | [], _ => none
  | (k, v) :: rest, key => if k = key then some v else dictFind rest key

/-- Python dict.pop(key, None): remove the entry for a key. -/
def dictPop : List (Nat × Nat) → Nat → List (Nat × Nat)
  | [], _ => []
  | p :: rest, key => if p.1 = key then dictPop rest key else p :: dictPop rest key

/-- Python dict assignment d[key] = v: overwrite the entry for a key. -/
def dictSet (d : List (Nat × Nat)) (key v : Nat) : List (Nat × Nat) :=
  (key, v) :: dictPop d key

/-- Does the character list start with the pattern? -/
def charListStarts : List Char → List Char → Bool
  | [], _ => true
  | _ :: _, [] => false
  | p :: ps, c :: cs => p == c && charListStarts ps cs

/-- Does the pattern occur as a contiguous run inside the character list? -/
def charListHas (pat : List Char) : List Char → Bool
  | [] => charListStarts pat []
  | c :: cs => charListStarts pat (c :: cs) || charListHas pat cs

/-- Python substring test: pat in s. -/
def strContains (s pat : String) : Bool :=
  charListHas pat.toList s.toList

/-- ASCII lower-casing of one character (the fragment of str.lower relevant
to detecting the all-lowercase pattern quota). -/
def lowerChar (c : Char) : Char :=
  if 'A' ≤ c ∧ c ≤ 'Z' then Char.ofNat (c.toNat + 32) else c

/-- Python str.lower(), modelled on the ASCII range. -/
def lowerString (s : String) : String :=
  ⟨s.toList.map lowerChar⟩

/-- Python text slicing text[:n]: the first n characters. -/
def takeChars (s : String) (n : Nat) : String :=
  ⟨s.toList.take n⟩

/-- The rate-limit classification of app.py:219:
429 in error_str or ResourceExhausted in error_str or quota in error_str.lower(). -/
def isRateLimited (errorStr : String) : Bool :=
  strContains errorStr "429" || strContains errorStr "ResourceExhausted" ||
    strContains (lowerString errorStr) "quota"

/-- Message of the QuotaExhaustedError raised while the global cooldown is
active (app.py:164-166). -/
def globalCooldownMsg (remaining : Nat) : String :=
  "所有 API Key 配額耗盡，全域冷卻中（剩餘 " ++ toString remaining ++ " 秒）"

/-- Message of the QuotaExhaustedError raised after all rounds fail
(app.py:241-243). -/
def quotaExhaustedMsg (numKeys : Nat) : String :=
  "所有 " ++ toString numKeys ++ " 把 API Key 配額耗盡，已啟動 " ++
    toString GLOBAL_COOLDOWN ++ " 秒全域冷卻"

/-- app.py:131-138, _is_in_global_cooldown: returns the active flag and the
remaining whole seconds. -/
def isInGlobalCooldown (s : GeminiState) : Bool × Nat :=
  if s.now < s.globalCooldownUntil then (true, s.globalCooldownUntil - s.now)
  else (false, 0)

/-- app.py:141-151, _throttle_request: if less than MIN_REQUEST_INTERVAL has
elapsed since the last call, sleep for the remainder; then record now as the
last request time. -/
def throttleRequest (s : GeminiState) : GeminiState :=
  if s.now - s.lastRequestTime < MIN_REQUEST_INTERVAL then
    { s with now := s.now + (MIN_REQUEST_INTERVAL - (s.now - s.lastRequestTime)),
             lastRequestTime := s.now + (MIN_REQUEST_INTERVAL - (s.now - s.lastRequestTime)) }
  else
    { s with lastRequestTime := s.now }

/-- The backoff delay before a retry round (app.py:172):
min(15 * 2 ** (round_num - 1), 60). -/
def backoffSeconds (roundNum : Nat) : Nat :=
  min (15 * 2 ^ (roundNum - 1)) 60

/-- Observable steps of one dispatch call. -/
inductive Event where
  | backoff (roundNum seconds : Nat)
  | skipKey (keyIndex : Nat)
  | throttle
  | attemptKey (roundNum keyIndex : Nat)
  | markCooldown (keyIndex untilTime : Nat)
deriving Repr, DecidableEq

/-- Result of the inner per-round credential loop (app.py:179-228). -/
inductive InnerResult where
  | success (text : String)
  | propagate (msg : String)
  | exhausted (keysTried : Nat)
deriving Repr, DecidableEq

/-- Prepend events to a traced result. -/
def addEvts {α : Type} (es : List Event) :
    α × GeminiState × List Event → α × GeminiState × List Event
  | (res, s, evts) => (res, s, es ++ evts)

/-- State update on success (app.py:211-213): advance the cursor, remove
this key's cooldown entry. -/
def successState (s : GeminiState) (k numKeys : Nat) : GeminiState :=
  { s with currentKeyIndex := (k + 1) % numKeys,
           keyCooldown := dictPop s.keyCooldown k }

/-- State update on a rate-limited error (app.py:221): record this key's
cooldown deadline. -/
def markKeyCooldown (s : GeminiState) (k : Nat) : GeminiState :=
  { s with keyCooldown := dictSet s.keyCooldown k (s.now + PER_KEY_COOLDOWN) }

/-- The inner loop of app.py:179-228: iterate credential offsets, skipping
keys in individual cooldown, throttling then invoking the attempt for the
rest; success returns at once, a rate-limited error marks a per-key cooldown
and continues, any other error propagates. -/
def innerLoop (f : AttemptFn) (numKeys roundNum : Nat) :
    List Nat → Nat → GeminiState → InnerResult × GeminiState × List Event
  | [], keysTried, s => (.exhausted keysTried, s, [])
  | a :: rest, keysTried, s =>
    let k := (s.currentKeyIndex + a) % numKeys
    if s.now < (dictFind s.keyCooldown k).getD 0 then
      addEvts [.skipKey k] (innerLoop f numKeys roundNum rest keysTried s)
    else
      let s1 := throttleRequest s
      match f roundNum k with
      | .success t =>
        (.success t, successState s1 k numKeys, [.throttle, .attemptKey roundNum k])
      | .failure m =>
        if isRateLimited m then
          addEvts [.throttle, .attemptKey roundNum k,
                   .markCooldown k (s1.now + PER_KEY_COOLDOWN)]
            (innerLoop f numKeys roundNum rest (keysTried + 1)
              (markKeyCooldown s1 k))
        else
          (.propagate m, s1, [.throttle, .attemptKey roundNum k])

/-- Result of one whole dispatch call. -/
inductive DispatchResult where
  | ok (text : String)
  | quotaExhausted (msg : String)
  | raised (msg : String)
  | configError (msg : String)
deriving Repr, DecidableEq

/-- The backoff sleep before a retry round (app.py:171-174): advance the
clock when the round number is positive. -/
def backoffState (s : GeminiState) (r : Nat) : GeminiState :=
  if 0 < r then { s with now := s.now + backoffSeconds r } else s

/-- The events of the backoff sleep before a round. -/
def backoffEvents (r : Nat) : List Event :=
  if 0 < r then [Event.backoff r (backoffSeconds r)] else []

/-- The round loop of app.py:170-243: backoff sleep before every round after
the first, run the inner loop, stop early when a round made zero attempts;
when no round succeeds, activate the global cooldown and fail. -/
def roundsLoop (f : AttemptFn) (numKeys : Nat) :
    List Nat → GeminiState → DispatchResult × GeminiState × List Event
  | [], s =>
    (.quotaExhausted (quotaExhaustedMsg numKeys),
     { s with globalCooldownUntil := s.now + GLOBAL_COOLDOWN }, [])
  | r :: rest, s =>
    match innerLoop f numKeys r (List.range numKeys) 0 (backoffState s r) with
    | (.success t, s1, evts) => (.ok t, s1, backoffEvents r ++ evts)
    | (.propagate m, s1, evts) => (.raised m, s1, backoffEvents r ++ evts)
    | (.exhausted keysTried, s1, evts) =>
      if keysTried = 0 then
        (.quotaExhausted (quotaExhaustedMsg numKeys),
         { s1 with globalCooldownUntil := s1.now + GLOBAL_COOLDOWN },
         backoffEvents r ++ evts)
      else
        addEvts (backoffEvents r ++ evts) (roundsLoop f numKeys rest s1)

/-- app.py:154-243, _call_gemini_with_rotation: empty-pool check, global
cooldown check, then the round loop. -/
def callGeminiWithRotation (f : AttemptFn) (keys : List String)
    (maxRounds : Nat) (s : GeminiState) :
    DispatchResult × GeminiState × List Event :=
  if keys.isEmpty then
    (.configError "No Gemini API keys configured!", s, [])
  else if (isInGlobalCooldown s).1 then
    (.quotaExhausted (globalCooldownMsg (isInGlobalCooldown s).2), s, [])
  else
    roundsLoop f keys.length (List.range maxRounds) s

/-- Outcome of one OpenRouter HTTP call (app.py:281-301): a response with a
status code and text, or a raised exception. -/
inductive ORResponse where
  | http (status : Nat) (body : String)
  | exn (msg : String)
deriving Repr, DecidableEq

/-- The ordered free-model list of app.py:65-69. -/
def OPENROUTER_FREE_MODELS : List String :=
  ["qwen/qwen2.5-vl-32b-instruct:free",
   "meta-llama/llama-3.2-11b-vision-instruct:free",
   "google/gemma-3-4b-it:free"]

/-- The error recorded for a non-200 OpenRouter response (app.py:295). -/
def orErrorMsg (status : Nat) (body : String) : String :=
  "OpenRouter " ++ toString status ++ ": " ++ takeChars body 200

/-- The model loop of app.py:278-305: first 200 response wins; otherwise the
last error (or a generic failure when no model was even recorded) is raised. -/
def openRouterLoop (attempt : String → ORResponse) :
    List String → Option String → Except String String
  | [], lastError =>
    match lastError with
    | some e => .error e
    | none => .error "All OpenRouter models failed"
  | m :: rest, _ =>
    match attempt m with
    | .http status body =>
      if status = 200 then .ok body
      else openRouterLoop attempt rest (some (orErrorMsg status body))
    | .exn e => openRouterLoop attempt rest (some e)

/-- app.py:246-305, _call_openrouter_fallback. -/
def callOpenRouterFallback (apiKey : String) (attempt : String → ORResponse) :
    Except String String :=
  if apiKey = "" then .error "OPENROUTER_API_KEY not configured"
  else openRouterLoop attempt OPENROUTER_FREE_MODELS none

/-- Message of the terminal exception at app.py:412. -/
def ALL_PROVIDERS_FAILED_MSG : String :=
  "所有 AI 服務都無法使用（Gemini + OpenRouter）"

/-- The analysis portion of app.py:386-412 (_process_image_async): Gemini
first when a pool is configured, any of its exceptions absorbed; then the
OpenRouter fallback when its key is configured; when no provider produced a
text, the terminal fixed-message exception is raised. -/
def analyzeImage (f : AttemptFn) (geminiKeys : List String) (maxRounds : Nat)
    (s : GeminiState) (orKey : String) (orAttempt : String → ORResponse) :
    Except String String :=
  let primary : Option String :=
    if geminiKeys.isEmpty then none
    else
      match callGeminiWithRotation f geminiKeys maxRounds s with
      | (.ok t, _, _) => some t
      | _ => none
  match primary with
  | some t => .ok t
  | none =>
    if orKey = "" then .error ALL_PROVIDERS_FAILED_MSG
    else
      match callOpenRouterFallback orKey orAttempt with
      | .ok t => .ok t
      | .error _ => .error ALL_PROVIDERS_FAILED_MSG

/-- Is an OpenRouter outcome a success (status 200)? -/
def isORSuccess : ORResponse → Bool
  | .http status _ => status == 200
  | .exn _ => false

/-- Is an event a backoff sleep for the given round? -/
def isBackoffRound (r : Nat) : Event → Bool
  | .backoff r2 _ => r2 == r
  | _ => false

/-!  Helper lemmas about the state primitives.  -/

theorem dictFind_dictPop_self (d : List (Nat × Nat)) (k : Nat) :
    dictFind (dictPop d k) k = none := by
  induction d with
  | nil => rfl
  | cons p rest ih =>
    by_cases hp : p.1 = k
    · simpa [dictPop, hp] using ih
    · simpa [dictPop, dictFind, hp] using ih

theorem dictFind_dictPop_ne (d : List (Nat × Nat)) (k i : Nat) (h : k ≠ i) :
    dictFind (dictPop d k) i = dictFind d i := by
  induction d with
  | nil => rfl
  | cons p rest ih =>
    by_cases hp : p.1 = k
    · have hpi : p.1 ≠ i := by omega
      simp [dictPop, hp, dictFind, hpi, ih, h]
    · by_cases hi : p.1 = i <;>
        simp [dictPop, hp, dictFind, hi, ih, h, Ne.symm h]

theorem dictFind_dictSet_ne (d : List (Nat × Nat)) (k v i : Nat) (h : k ≠ i) :
    dictFind (dictSet d k v) i = dictFind d i := by
  simp [dictSet, dictFind, h, dictFind_dictPop_ne d k i h]

@[simp] theorem throttle_currentKeyIndex (s : GeminiState) :
    (throttleRequest s).currentKeyIndex = s.currentKeyIndex := by
  unfold throttleRequest; split <;> rfl

@[simp] theorem throttle_keyCooldown (s : GeminiState) :
    (throttleRequest s).keyCooldown = s.keyCooldown := by
  unfold throttleRequest; split <;> rfl

@[simp] theorem throttle_globalCooldownUntil (s : GeminiState) :
    (throttleRequest s).globalCooldownUntil = s.globalCooldownUntil := by
  unfold throttleRequest; split <;> rfl

@[simp] theorem addEvts_mk {α : Type} (es : List Event) (res : α)
    (s : GeminiState) (evts : List Event) :
    addEvts es (res, s, evts) = (res, s, es ++ evts) := rfl

@[simp] theorem markKeyCooldown_currentKeyIndex (s : GeminiState) (k : Nat) :
    (markKeyCooldown s k).currentKeyIndex = s.currentKeyIndex := rfl

@[simp] theorem markKeyCooldown_now (s : GeminiState) (k : Nat) :
    (markKeyCooldown s k).now = s.now := rfl

@[simp] theorem markKeyCooldown_globalCooldownUntil (s : GeminiState) (k : Nat) :
    (markKeyCooldown s k).globalCooldownUntil = s.globalCooldownUntil := rfl

@[simp] theorem markKeyCooldown_keyCooldown (s : GeminiState) (k : Nat) :
    (markKeyCooldown s k).keyCooldown =
      dictSet s.keyCooldown k (s.now + PER_KEY_COOLDOWN) := rfl

@[simp] theorem successState_currentKeyIndex (s : GeminiState) (k numKeys : Nat) :
    (successState s k numKeys).currentKeyIndex = (k + 1) % numKeys := rfl

@[simp] theorem successState_keyCooldown (s : GeminiState) (k numKeys : Nat) :
    (successState s k numKeys).keyCooldown = dictPop s.keyCooldown k := rfl

/-!  Lemmas about the inner credential loop.  -/

/-- Every event of the inner loop is a skip, a throttle, an attempt tagged
with this round, or a cooldown mark; in particular no backoff sleep. -/
theorem innerLoop_events_shape (f : AttemptFn) (N r : Nat) :
    ∀ (as : List Nat) (kt : Nat) (s : GeminiState) res s2 evts,
      innerLoop f N r as kt s = (res, s2, evts) →
      ∀ e ∈ evts, (∃ k, e = Event.skipKey k) ∨ e = Event.throttle ∨
        (∃ i, e = Event.attemptKey r i) ∨ (∃ i u, e = Event.markCooldown i u) := by
  intro as
  induction as with
  | nil =>
    intro kt s res s2 evts h e he
    simp only [innerLoop, Prod.mk.injEq] at h
    obtain ⟨rfl, rfl, rfl⟩ := h
    simp at he
  | cons a rest ih =>
    intro kt s res s2 evts h e he
    simp only [innerLoop] at h
    split at h
    · rcases hrec : innerLoop f N r rest kt s with ⟨res1, s1, evts1⟩
      rw [hrec] at h
      simp only [addEvts_mk, Prod.mk.injEq] at h
      obtain ⟨rfl, rfl, rfl⟩ := h
      rcases List.mem_cons.mp he with rfl | he1
      · exact Or.inl ⟨_, rfl⟩
      · exact ih kt s res1 s1 evts1 hrec e he1
    · split at h
      · rename_i t hfk
        simp only [Prod.mk.injEq] at h
        obtain ⟨rfl, rfl, rfl⟩ := h
        rcases List.mem_cons.mp he with rfl | he1
        · exact Or.inr (Or.inl rfl)
        · rcases List.mem_cons.mp he1 with rfl | he2
          · exact Or.inr (Or.inr (Or.inl ⟨_, rfl⟩))
          · simp at he2
      · rename_i m hfk
        split at h
        · rcases hrec : innerLoop f N r rest (kt + 1)
              (markKeyCooldown (throttleRequest s) ((s.currentKeyIndex + a) % N))
            with ⟨res1, s1, evts1⟩
          rw [hrec] at h
          simp only [addEvts_mk, Prod.mk.injEq] at h
          obtain ⟨rfl, rfl, rfl⟩ := h
          rcases List.mem_cons.mp he with rfl | he1
          · exact Or.inr (Or.inl rfl)
          · rcases List.mem_cons.mp he1 with rfl | he2
            · exact Or.inr (Or.inr (Or.inl ⟨_, rfl⟩))
            · rcases List.mem_cons.mp he2 with rfl | he3
              · exact Or.inr (Or.inr (Or.inr ⟨_, _, rfl⟩))
              · exact ih _ _ res1 s1 evts1 hrec e he3
        · simp only [Prod.mk.injEq] at h
          obtain ⟨rfl, rfl, rfl⟩ := h
          rcases List.mem_cons.mp he with rfl | he1
          · exact Or.inr (Or.inl rfl)
          · rcases List.mem_cons.mp he1 with rfl | he2
            · exact Or.inr (Or.inr (Or.inl ⟨_, rfl⟩))
            · simp at he2

/-- If the inner loop attempted key i during round r and that attempt
succeeded, the loop returns that result at once: the cursor advances to
(i+1) mod N, key i's cooldown entry is gone, and the attempt on i is the
last event of the loop. -/
theorem innerLoop_success_at (f : AttemptFn) (N r : Nat) :
    ∀ (as : List Nat) (kt : Nat) (s : GeminiState) res s2 evts i t,
      innerLoop f N r as kt s = (res, s2, evts) →
      Event.attemptKey r i ∈ evts →
      f r i = .success t →
      res = .success t ∧ s2.currentKeyIndex = (i + 1) % N ∧
        dictFind s2.keyCooldown i = none ∧
        ∃ pre, evts = pre ++ [Event.throttle, Event.attemptKey r i] := by
  intro as
  induction as with
  | nil =>
    intro kt s res s2 evts i t h he hf
    simp only [innerLoop, Prod.mk.injEq] at h
    obtain ⟨rfl, rfl, rfl⟩ := h
    simp at he
  | cons a rest ih =>
    intro kt s res s2 evts i t h he hf
    simp only [innerLoop] at h
    split at h
    · rcases hrec : innerLoop f N r rest kt s with ⟨res1, s1, evts1⟩
      rw [hrec] at h
      simp only [addEvts_mk, Prod.mk.injEq] at h
      obtain ⟨rfl, rfl, rfl⟩ := h
      rcases List.mem_cons.mp he with h1 | h1
      · simp at h1
      · obtain ⟨hres, hcur, hcd, pre1, hpre⟩ := ih kt s res1 s1 evts1 i t hrec h1 hf
        exact ⟨hres, hcur, hcd,
          Event.skipKey ((s.currentKeyIndex + a) % N) :: pre1, by simp [hpre]⟩
    · split at h
      · rename_i t1 hfk
        simp only [Prod.mk.injEq] at h
        obtain ⟨rfl, rfl, rfl⟩ := h
        rcases List.mem_cons.mp he with h1 | h1
        · simp at h1
        · rw [List.mem_singleton] at h1
          obtain ⟨-, rfl⟩ := Event.attemptKey.inj h1
          rw [hf] at hfk
          obtain rfl := (AttemptOutcome.success.inj hfk).symm
          refine ⟨rfl, by simp, ?_, [], rfl⟩
          simp [successState, dictFind_dictPop_self]
      · rename_i m1 hfk
        split at h
        · rcases hrec : innerLoop f N r rest (kt + 1)
              (markKeyCooldown (throttleRequest s) ((s.currentKeyIndex + a) % N))
            with ⟨res1, s1, evts1⟩
          rw [hrec] at h
          simp only [addEvts_mk, Prod.mk.injEq] at h
          obtain ⟨rfl, rfl, rfl⟩ := h
          rcases List.mem_cons.mp he with h1 | h1
          · simp at h1
          · rcases List.mem_cons.mp h1 with h2 | h2
            · obtain ⟨-, rfl⟩ := Event.attemptKey.inj h2
              rw [hf] at hfk
              cases hfk
            · rcases List.mem_cons.mp h2 with h3 | h3
              · simp at h3
              · obtain ⟨hres, hcur, hcd, pre1, hpre⟩ := ih _ _ res1 s1 evts1 i t hrec h3 hf
                exact ⟨hres, hcur, hcd,
                  Event.throttle :: Event.attemptKey r ((s.currentKeyIndex + a) % N) ::
                    Event.markCooldown ((s.currentKeyIndex + a) % N)
                      ((throttleRequest s).now + PER_KEY_COOLDOWN) :: pre1,
                  by simp [hpre]⟩
        · simp only [Prod.mk.injEq] at h
          obtain ⟨rfl, rfl, rfl⟩ := h
          rcases List.mem_cons.mp he with h1 | h1
          · simp at h1
          · rw [List.mem_singleton] at h1
            obtain ⟨-, rfl⟩ := Event.attemptKey.inj h1
            rw [hf] at hfk
            cases hfk

/-- If the inner loop attempted key i during round r and that attempt failed
with an error not classified rate-limited, the loop propagates exactly that
error at once: the attempt on i is the last event, and unless an earlier
step of the loop marked i, key i's cooldown entry is untouched. -/
theorem innerLoop_propagate_at (f : AttemptFn) (N r : Nat) :
    ∀ (as : List Nat) (kt : Nat) (s : GeminiState) res s2 evts i m,
      innerLoop f N r as kt s = (res, s2, evts) →
      Event.attemptKey r i ∈ evts →
      f r i = .failure m →
      isRateLimited m = false →
      res = .propagate m ∧
        ∃ pre, evts = pre ++ [Event.throttle, Event.attemptKey r i] ∧
          ((∀ u, Event.markCooldown i u ∉ pre) →
            dictFind s2.keyCooldown i = dictFind s.keyCooldown i) := by
  intro as
  induction as with
  | nil =>
    intro kt s res s2 evts i m h he hf hrl
    simp only [innerLoop, Prod.mk.injEq] at h
    obtain ⟨rfl, rfl, rfl⟩ := h
    simp at he
  | cons a rest ih =>
    intro kt s res s2 evts i m h he hf hrl
    simp only [innerLoop] at h
    split at h
    · rcases hrec : innerLoop f N r rest kt s with ⟨res1, s1, evts1⟩
      rw [hrec] at h
      simp only [addEvts_mk, Prod.mk.injEq] at h
      obtain ⟨rfl, rfl, rfl⟩ := h
      rcases List.mem_cons.mp he with h1 | h1
      · simp at h1
      · obtain ⟨hres, pre1, hpre, hkeep⟩ := ih kt s res1 s1 evts1 i m hrec h1 hf hrl
        refine ⟨hres, Event.skipKey ((s.currentKeyIndex + a) % N) :: pre1,
          by simp [hpre], ?_⟩
        intro hnomark
        exact hkeep fun u hu => hnomark u (List.mem_cons_of_mem _ hu)
    · split at h
      · rename_i t1 hfk
        simp only [Prod.mk.injEq] at h
        obtain ⟨rfl, rfl, rfl⟩ := h
        rcases List.mem_cons.mp he with h1 | h1
        · simp at h1
        · rw [List.mem_singleton] at h1
          obtain ⟨-, rfl⟩ := Event.attemptKey.inj h1
          rw [hf] at hfk
          cases hfk
      · rename_i m1 hfk
        split at h
        · rename_i hrl1
          rcases hrec : innerLoop f N r rest (kt + 1)
              (markKeyCooldown (throttleRequest s) ((s.currentKeyIndex + a) % N))
            with ⟨res1, s1, evts1⟩
          rw [hrec] at h
          simp only [addEvts_mk, Prod.mk.injEq] at h
          obtain ⟨rfl, rfl, rfl⟩ := h
          rcases List.mem_cons.mp he with h1 | h1
          · simp at h1
          · rcases List.mem_cons.mp h1 with h2 | h2
            · obtain ⟨-, rfl⟩ := Event.attemptKey.inj h2
              rw [hf] at hfk
              obtain rfl := (AttemptOutcome.failure.inj hfk).symm
              rw [hrl] at hrl1
              cases hrl1
            · rcases List.mem_cons.mp h2 with h3 | h3
              · simp at h3
              · obtain ⟨hres, pre1, hpre, hkeep⟩ :=
                  ih _ _ res1 s1 evts1 i m hrec h3 hf hrl
                refine ⟨hres,
                  Event.throttle :: Event.attemptKey r ((s.currentKeyIndex + a) % N) ::
                    Event.markCooldown ((s.currentKeyIndex + a) % N)
                      ((throttleRequest s).now + PER_KEY_COOLDOWN) :: pre1,
                  by simp [hpre], ?_⟩
                intro hnomark
                have hki : (s.currentKeyIndex + a) % N ≠ i := by
                  intro hKi
                  exact hnomark ((throttleRequest s).now + PER_KEY_COOLDOWN)
                    (by rw [hKi]; simp)
                have h1 := hkeep fun u hu => hnomark u (by simp [hu])
                rw [h1]
                simp only [markKeyCooldown_keyCooldown, throttle_keyCooldown]
                exact dictFind_dictSet_ne _ _ _ _ hki
        · simp only [Prod.mk.injEq] at h
          obtain ⟨rfl, rfl, rfl⟩ := h
          rcases List.mem_cons.mp he with h1 | h1
          · simp at h1
          · rw [List.mem_singleton] at h1
            obtain ⟨-, rfl⟩ := Event.attemptKey.inj h1
            rw [hf] at hfk
            obtain rfl := (AttemptOutcome.failure.inj hfk).symm
            exact ⟨rfl, [], rfl, fun _ => by simp⟩

/-- If every attempt the inner loop made came back as a rate-limited error,
the loop neither succeeds nor propagates: it runs to exhaustion. -/
theorem innerLoop_rl_only (f : AttemptFn) (N r : Nat) :
    ∀ (as : List Nat) (kt : Nat) (s : GeminiState) res s2 evts,
      innerLoop f N r as kt s = (res, s2, evts) →
      (∀ i, Event.attemptKey r i ∈ evts →
        ∃ m, f r i = .failure m ∧ isRateLimited m = true) →
      ∃ kt2, res = .exhausted kt2 := by
  intro as
  induction as with
  | nil =>
    intro kt s res s2 evts h hall
    simp only [innerLoop, Prod.mk.injEq] at h
    obtain ⟨rfl, rfl, rfl⟩ := h
    exact ⟨kt, rfl⟩
  | cons a rest ih =>
    intro kt s res s2 evts h hall
    simp only [innerLoop] at h
    split at h
    · rcases hrec : innerLoop f N r rest kt s with ⟨res1, s1, evts1⟩
      rw [hrec] at h
      simp only [addEvts_mk, Prod.mk.injEq] at h
      obtain ⟨rfl, rfl, rfl⟩ := h
      exact ih kt s res1 s1 evts1 hrec fun i hi => hall i (by simp [hi])
    · split at h
      · rename_i t1 hfk
        simp only [Prod.mk.injEq] at h
        obtain ⟨rfl, rfl, rfl⟩ := h
        obtain ⟨m, hm, -⟩ := hall ((s.currentKeyIndex + a) % N) (by simp)
        rw [hm] at hfk
        cases hfk
      · rename_i m1 hfk
        split at h
        · rcases hrec : innerLoop f N r rest (kt + 1)
              (markKeyCooldown (throttleRequest s) ((s.currentKeyIndex + a) % N))
            with ⟨res1, s1, evts1⟩
          rw [hrec] at h
          simp only [addEvts_mk, Prod.mk.injEq] at h
          obtain ⟨rfl, rfl, rfl⟩ := h
          exact ih _ _ res1 s1 evts1 hrec fun i hi => hall i (by simp [hi])
        · rename_i hrln
          rw [Bool.not_eq_true] at hrln
          simp only [Prod.mk.injEq] at h
          obtain ⟨rfl, rfl, rfl⟩ := h
          obtain ⟨m2, hm2, hrl2⟩ := hall ((s.currentKeyIndex + a) % N) (by simp)
          rw [hm2] at hfk
          obtain rfl := AttemptOutcome.failure.inj hfk
          rw [hrln] at hrl2
          cases hrl2

/-- If the inner loop attempted key i during round r and that attempt failed
with a rate-limited error, a cooldown mark for key i is in the trace. -/
theorem innerLoop_mark_of_rl (f : AttemptFn) (N r : Nat) :
    ∀ (as : List Nat) (kt : Nat) (s : GeminiState) res s2 evts i m,
      innerLoop f N r as kt s = (res, s2, evts) →
      Event.attemptKey r i ∈ evts →
      f r i = .failure m →
      isRateLimited m = true →
      ∃ u, Event.markCooldown i u ∈ evts := by
  intro as
  induction as with
  | nil =>
    intro kt s res s2 evts i m h he hf hrl
    simp only [innerLoop, Prod.mk.injEq] at h
    obtain ⟨rfl, rfl, rfl⟩ := h
    simp at he
  | cons a rest ih =>
    intro kt s res s2 evts i m h he hf hrl
    simp only [innerLoop] at h
    split at h
    · rcases hrec : innerLoop f N r rest kt s with ⟨res1, s1, evts1⟩
      rw [hrec] at h
      simp only [addEvts_mk, Prod.mk.injEq] at h
      obtain ⟨rfl, rfl, rfl⟩ := h
      rcases List.mem_cons.mp he with h1 | h1
      · simp at h1
      · obtain ⟨u, hu⟩ := ih kt s res1 s1 evts1 i m hrec h1 hf hrl
        exact ⟨u, by simp [hu]⟩
    · split at h
      · rename_i t1 hfk
        simp only [Prod.mk.injEq] at h
        obtain ⟨rfl, rfl, rfl⟩ := h
        rcases List.mem_cons.mp he with h1 | h1
        · simp at h1
        · rw [List.mem_singleton] at h1
          obtain ⟨-, rfl⟩ := Event.attemptKey.inj h1
          rw [hf] at hfk
          cases hfk
      · rename_i m1 hfk
        split at h
        · rcases hrec : innerLoop f N r rest (kt + 1)
              (markKeyCooldown (throttleRequest s) ((s.currentKeyIndex + a) % N))
            with ⟨res1, s1, evts1⟩
          rw [hrec] at h
          simp only [addEvts_mk, Prod.mk.injEq] at h
          obtain ⟨rfl, rfl, rfl⟩ := h
          by_cases hKi : (s.currentKeyIndex + a) % N = i
          · exact ⟨(throttleRequest s).now + PER_KEY_COOLDOWN, by simp [hKi]⟩
          · rcases List.mem_cons.mp he with h1 | h1
            · simp at h1
            · rcases List.mem_cons.mp h1 with h2 | h2
              · obtain ⟨-, h3⟩ := Event.attemptKey.inj h2
                exact absurd h3.symm hKi
              · rcases List.mem_cons.mp h2 with h3 | h3
                · simp at h3
                · obtain ⟨u, hu⟩ := ih _ _ res1 s1 evts1 i m hrec h3 hf hrl
                  exact ⟨u, by simp [hu]⟩
        · rename_i hrln
          rw [Bool.not_eq_true] at hrln
          simp only [Prod.mk.injEq] at h
          obtain ⟨rfl, rfl, rfl⟩ := h
          rcases List.mem_cons.mp he with h1 | h1
          · simp at h1
          · rw [List.mem_singleton] at h1
            obtain ⟨-, rfl⟩ := Event.attemptKey.inj h1
            rw [hf] at hfk
            obtain rfl := AttemptOutcome.failure.inj hfk
            rw [hrln] at hrl
            cases hrl

/-- Whatever error the inner loop propagates is not classified rate-limited. -/
theorem innerLoop_propagate_rl_false (f : AttemptFn) (N r : Nat) :
    ∀ (as : List Nat) (kt : Nat) (s : GeminiState) res s2 evts m,
      innerLoop f N r as kt s = (res, s2, evts) →
      res = .propagate m →
      isRateLimited m = false := by
  intro as
  induction as with
  | nil =>
    intro kt s res s2 evts m h hres
    simp only [innerLoop, Prod.mk.injEq] at h
    obtain ⟨rfl, rfl, rfl⟩ := h
    cases hres
  | cons a rest ih =>
    intro kt s res s2 evts m h hres
    simp only [innerLoop] at h
    split at h
    · rcases hrec : innerLoop f N r rest kt s with ⟨res1, s1, evts1⟩
      rw [hrec] at h
      simp only [addEvts_mk, Prod.mk.injEq] at h
      obtain ⟨rfl, rfl, rfl⟩ := h
      exact ih kt s res1 s1 evts1 m hrec hres
    · split at h
      · simp only [Prod.mk.injEq] at h
        obtain ⟨rfl, rfl, rfl⟩ := h
        cases hres
      · rename_i m1 hfk
        split at h
        · rcases hrec : innerLoop f N r rest (kt + 1)
              (markKeyCooldown (throttleRequest s) ((s.currentKeyIndex + a) % N))
            with ⟨res1, s1, evts1⟩
          rw [hrec] at h
          simp only [addEvts_mk, Prod.mk.injEq] at h
          obtain ⟨rfl, rfl, rfl⟩ := h
          exact ih _ _ res1 s1 evts1 m hrec hres
        · rename_i hrln
          rw [Bool.not_eq_true] at hrln
          simp only [Prod.mk.injEq] at h
          obtain ⟨rfl, rfl, rfl⟩ := h
          obtain rfl := InnerResult.propagate.inj hres
          exact hrln

/-- The inner loop keeps the rotation cursor below the pool size. -/
theorem innerLoop_cursor (f : AttemptFn) (N r : Nat) :
    ∀ (as : List Nat) (kt : Nat) (s : GeminiState) res s2 evts,
      innerLoop f N r as kt s = (res, s2, evts) →
      0 < N → s.currentKeyIndex < N → s2.currentKeyIndex < N := by
  intro as
  induction as with
  | nil =>
    intro kt s res s2 evts h hN hs
    simp only [innerLoop, Prod.mk.injEq] at h
    obtain ⟨rfl, rfl, rfl⟩ := h
    exact hs
  | cons a rest ih =>
    intro kt s res s2 evts h hN hs
    simp only [innerLoop] at h
    split at h
    · rcases hrec : innerLoop f N r rest kt s with ⟨res1, s1, evts1⟩
      rw [hrec] at h
      simp only [addEvts_mk, Prod.mk.injEq] at h
      obtain ⟨rfl, rfl, rfl⟩ := h
      exact ih kt s res1 s1 evts1 hrec hN hs
    · split at h
      · simp only [Prod.mk.injEq] at h
        obtain ⟨rfl, rfl, rfl⟩ := h
        simpa using Nat.mod_lt _ hN
      · split at h
        · rcases hrec : innerLoop f N r rest (kt + 1)
              (markKeyCooldown (throttleRequest s) ((s.currentKeyIndex + a) % N))
            with ⟨res1, s1, evts1⟩
          rw [hrec] at h
          simp only [addEvts_mk, Prod.mk.injEq] at h
          obtain ⟨rfl, rfl, rfl⟩ := h
          exact ih _ _ res1 s1 evts1 hrec hN (by simpa using hs)
        · simp only [Prod.mk.injEq] at h
          obtain ⟨rfl, rfl, rfl⟩ := h
          simpa using hs

/-- A run of the inner loop that does not succeed leaves the cooldown entry
of any key it never marked untouched. -/
theorem innerLoop_preserve_cd (f : AttemptFn) (N r : Nat) :
    ∀ (as : List Nat) (kt : Nat) (s : GeminiState) res s2 evts i,
      innerLoop f N r as kt s = (res, s2, evts) →
      (∀ t, res ≠ .success t) →
      (∀ u, Event.markCooldown i u ∉ evts) →
      dictFind s2.keyCooldown i = dictFind s.keyCooldown i := by
  intro as
  induction as with
  | nil =>
    intro kt s res s2 evts i h hns hnomark
    simp only [innerLoop, Prod.mk.injEq] at h
    obtain ⟨rfl, rfl, rfl⟩ := h
    rfl
  | cons a rest ih =>
    intro kt s res s2 evts i h hns hnomark
    simp only [innerLoop] at h
    split at h
    · rcases hrec : innerLoop f N r rest kt s with ⟨res1, s1, evts1⟩
      rw [hrec] at h
      simp only [addEvts_mk, Prod.mk.injEq] at h
      obtain ⟨rfl, rfl, rfl⟩ := h
      exact ih kt s res1 s1 evts1 i hrec hns
        fun u hu => hnomark u (by simp [hu])
    · split at h
      · rename_i t1 hfk
        simp only [Prod.mk.injEq] at h
        obtain ⟨rfl, rfl, rfl⟩ := h
        exact absurd rfl (hns t1)
      · split at h
        · rcases hrec : innerLoop f N r rest (kt + 1)
              (markKeyCooldown (throttleRequest s) ((s.currentKeyIndex + a) % N))
            with ⟨res1, s1, evts1⟩
          rw [hrec] at h
          simp only [addEvts_mk, Prod.mk.injEq] at h
          obtain ⟨rfl, rfl, rfl⟩ := h
          have hKi : (s.currentKeyIndex + a) % N ≠ i := by
            intro hKi
            exact hnomark ((throttleRequest s).now + PER_KEY_COOLDOWN)
              (by rw [hKi]; simp)
          have h1 := ih _ _ res1 s1 evts1 i hrec hns
            fun u hu => hnomark u (by simp [hu])
          rw [h1]
          simp only [markKeyCooldown_keyCooldown, throttle_keyCooldown]
          exact dictFind_dictSet_ne _ _ _ _ hKi
        · simp only [Prod.mk.injEq] at h
          obtain ⟨rfl, rfl, rfl⟩ := h
          simp

/-- When every key of the pool is in individual cooldown, the inner loop
attempts nothing: it returns exhausted with an unchanged state, emitting one
skip event per offset. -/
theorem innerLoop_all_cooldown (f : AttemptFn) (N r : Nat) (s : GeminiState)
    (hN : 0 < N)
    (hall : ∀ j, j < N → s.now < (dictFind s.keyCooldown j).getD 0) :
    ∀ (as : List Nat) (kt : Nat),
      innerLoop f N r as kt s =
        (.exhausted kt, s,
         as.map (fun a => Event.skipKey ((s.currentKeyIndex + a) % N))) := by
  intro as
  induction as with
  | nil => intro kt; rfl
  | cons a rest ih =>
    intro kt
    have hK : (s.currentKeyIndex + a) % N < N := Nat.mod_lt _ hN
    simp only [innerLoop, if_pos (hall _ hK), ih kt, addEvts_mk, List.map_cons]
    rfl

/-- When key i is the only key not in individual cooldown and the iteration
order reaches i, the inner loop skips keys other than i and then succeeds at
i, with the success state update applied to the throttled state. -/
theorem innerLoop_only_avail (f : AttemptFn) (N r i : Nat) (t : String)
    (hN : 0 < N) (s : GeminiState)
    (honly : ∀ j, j < N → j ≠ i → s.now < (dictFind s.keyCooldown j).getD 0)
    (havail : ¬ s.now < (dictFind s.keyCooldown i).getD 0)
    (hf : f r i = .success t) :
    ∀ (as : List Nat) (kt : Nat),
      (∃ a ∈ as, (s.currentKeyIndex + a) % N = i) →
      ∃ skipped : List Nat, innerLoop f N r as kt s =
        (.success t, successState (throttleRequest s) i N,
         skipped.map Event.skipKey ++ [Event.throttle, Event.attemptKey r i]) ∧
        ∀ j ∈ skipped, j ≠ i := by
  intro as
  induction as with
  | nil =>
    intro kt hex
    simp at hex
  | cons a rest ih =>
    intro kt hex
    by_cases hK : (s.currentKeyIndex + a) % N = i
    · refine ⟨[], ?_, by simp⟩
      simp only [innerLoop, hK, if_neg havail, hf, List.map_nil, List.nil_append]
    · have hKlt : (s.currentKeyIndex + a) % N < N := Nat.mod_lt _ hN
      obtain ⟨a1, ha1, hha⟩ := hex
      rcases List.mem_cons.mp ha1 with rfl | ha1r
      · exact absurd hha hK
      · obtain ⟨sk1, heq, hsk⟩ := ih kt ⟨a1, ha1r, hha⟩
        refine ⟨(s.currentKeyIndex + a) % N :: sk1, ?_, ?_⟩
        · simp only [innerLoop, if_pos (honly _ hKlt hK), heq, addEvts_mk,
            List.map_cons]
          rfl
        · intro j hj
          rcases List.mem_cons.mp hj with rfl | hj1
          · exact hK
          · exact hsk j hj1

/-!  Lemmas about the round loop.  -/

@[simp] theorem backoffState_currentKeyIndex (s : GeminiState) (r : Nat) :
    (backoffState s r).currentKeyIndex = s.currentKeyIndex := by
  unfold backoffState; split <;> rfl

@[simp] theorem backoffState_keyCooldown (s : GeminiState) (r : Nat) :
    (backoffState s r).keyCooldown = s.keyCooldown := by
  unfold backoffState; split <;> rfl

theorem mem_backoffEvents {e : Event} {r : Nat} (h : e ∈ backoffEvents r) :
    0 < r ∧ e = Event.backoff r (backoffSeconds r) := by
  unfold backoffEvents at h
  split at h
  · rename_i hr
    rw [List.mem_singleton] at h
    exact ⟨hr, h⟩
  · simp at h

theorem backoffEvents_pos {r : Nat} (hr : 0 < r) :
    backoffEvents r = [Event.backoff r (backoffSeconds r)] := by
  unfold backoffEvents
  rw [if_pos hr]

theorem isBackoffRound_true {r : Nat} {e : Event} :
    isBackoffRound r e = true ↔ ∃ w, e = Event.backoff r w := by
  cases e with
  | backoff r2 w2 =>
    simp only [isBackoffRound, beq_iff_eq]
    constructor
    · intro h
      subst h
      exact ⟨w2, rfl⟩
    · rintro ⟨w, hw⟩
      exact (Event.backoff.inj hw).1
  | skipKey k => simp [isBackoffRound]
  | throttle => simp [isBackoffRound]
  | attemptKey a b => simp [isBackoffRound]
  | markCooldown a b => simp [isBackoffRound]

/-- Attempt events of the inner loop carry the loop's round number. -/
theorem innerLoop_attempt_round (f : AttemptFn) (N r : Nat)
    {as : List Nat} {kt : Nat} {s : GeminiState} {res s2 evts}
    {r2 i : Nat} (h : innerLoop f N r as kt s = (res, s2, evts))
    (he : Event.attemptKey r2 i ∈ evts) : r2 = r := by
  rcases innerLoop_events_shape f N r as kt s res s2 evts h _ he with
    ⟨k, hk⟩ | hk | ⟨i2, hk⟩ | ⟨i2, u, hk⟩
  · cases hk
  · cases hk
  · exact (Event.attemptKey.inj hk).1
  · cases hk

/-- The inner loop emits no backoff events. -/
theorem innerLoop_no_backoff (f : AttemptFn) (N r : Nat)
    {as : List Nat} {kt : Nat} {s : GeminiState} {res s2 evts}
    {r2 w : Nat} (h : innerLoop f N r as kt s = (res, s2, evts)) :
    Event.backoff r2 w ∉ evts := by
  intro he
  rcases innerLoop_events_shape f N r as kt s res s2 evts h _ he with
    ⟨k, hk⟩ | hk | ⟨i2, hk⟩ | ⟨i2, u, hk⟩ <;> cases hk

/-- Round-loop version of innerLoop_success_at: a successful attempt on key
i during round r2 determines the whole outcome of the loop. -/
theorem roundsLoop_success_at (f : AttemptFn) (N : Nat) :
    ∀ (rs : List Nat) (s : GeminiState) res s2 evts r2 i t,
      roundsLoop f N rs s = (res, s2, evts) →
      Event.attemptKey r2 i ∈ evts →
      f r2 i = .success t →
      res = .ok t ∧ s2.currentKeyIndex = (i + 1) % N ∧
        dictFind s2.keyCooldown i = none ∧
        ∃ pre, evts = pre ++ [Event.throttle, Event.attemptKey r2 i] := by
  intro rs
  induction rs with
  | nil =>
    intro s res s2 evts r2 i t h he hf
    simp only [roundsLoop, Prod.mk.injEq] at h
    obtain ⟨rfl, rfl, rfl⟩ := h
    simp at he
  | cons r0 rest ih =>
    intro s res s2 evts r2 i t h he hf
    simp only [roundsLoop] at h
    split at h
    · rename_i t1 s1 evts1 heq
      simp only [Prod.mk.injEq] at h
      obtain ⟨rfl, rfl, rfl⟩ := h
      rcases List.mem_append.mp he with h1 | h1
      · obtain ⟨-, hb⟩ := mem_backoffEvents h1
        cases hb
      · obtain rfl := innerLoop_attempt_round f N r0 heq h1
        obtain ⟨hres, hcur, hcd, pre1, hpre⟩ :=
          innerLoop_success_at f N r2 _ _ _ _ _ _ i t heq h1 hf
        obtain rfl := (InnerResult.success.inj hres).symm
        exact ⟨rfl, hcur, hcd, backoffEvents r2 ++ pre1, by simp [hpre]⟩
    · rename_i m1 s1 evts1 heq
      simp only [Prod.mk.injEq] at h
      obtain ⟨rfl, rfl, rfl⟩ := h
      rcases List.mem_append.mp he with h1 | h1
      · obtain ⟨-, hb⟩ := mem_backoffEvents h1
        cases hb
      · obtain rfl := innerLoop_attempt_round f N r0 heq h1
        obtain ⟨hres, -⟩ :=
          innerLoop_success_at f N r2 _ _ _ _ _ _ i t heq h1 hf
        cases hres
    · rename_i kt1 s1 evts1 heq
      split at h
      · simp only [Prod.mk.injEq] at h
        obtain ⟨rfl, rfl, rfl⟩ := h
        rcases List.mem_append.mp he with h1 | h1
        · obtain ⟨-, hb⟩ := mem_backoffEvents h1
          cases hb
        · obtain rfl := innerLoop_attempt_round f N r0 heq h1
          obtain ⟨hres, -⟩ :=
            innerLoop_success_at f N r2 _ _ _ _ _ _ i t heq h1 hf
          cases hres
      · rcases hrec : roundsLoop f N rest s1 with ⟨res3, s3, evts3⟩
        rw [hrec] at h
        simp only [addEvts_mk, Prod.mk.injEq] at h
        obtain ⟨rfl, rfl, rfl⟩ := h
        rcases List.mem_append.mp he with h1 | h1
        · rcases List.mem_append.mp h1 with h2 | h2
          · obtain ⟨-, hb⟩ := mem_backoffEvents h2
            cases hb
          · obtain rfl := innerLoop_attempt_round f N r0 heq h2
            obtain ⟨hres, -⟩ :=
              innerLoop_success_at f N r2 _ _ _ _ _ _ i t heq h2 hf
            cases hres
        · obtain ⟨hres, hcur, hcd, pre3, hpre⟩ :=
            ih s1 res3 s3 evts3 r2 i t hrec h1 hf
          exact ⟨hres, hcur, hcd, (backoffEvents r0 ++ evts1) ++ pre3,
            by simp [hpre]⟩

/-- Round-loop version of innerLoop_propagate_at: a non-rate-limited failed
attempt on key i propagates at once as the loop's raised error. -/
theorem roundsLoop_propagate_at (f : AttemptFn) (N : Nat) :
    ∀ (rs : List Nat) (s : GeminiState) res s2 evts r2 i m,
      roundsLoop f N rs s = (res, s2, evts) →
      Event.attemptKey r2 i ∈ evts →
      f r2 i = .failure m →
      isRateLimited m = false →
      res = .raised m ∧
        ∃ pre, evts = pre ++ [Event.throttle, Event.attemptKey r2 i] ∧
          ((∀ u, Event.markCooldown i u ∉ pre) →
            dictFind s2.keyCooldown i = dictFind s.keyCooldown i) := by
  intro rs
  induction rs with
  | nil =>
    intro s res s2 evts r2 i m h he hf hrl
    simp only [roundsLoop, Prod.mk.injEq] at h
    obtain ⟨rfl, rfl, rfl⟩ := h
    simp at he
  | cons r0 rest ih =>
    intro s res s2 evts r2 i m h he hf hrl
    simp only [roundsLoop] at h
    split at h
    · rename_i t1 s1 evts1 heq
      simp only [Prod.mk.injEq] at h
      obtain ⟨rfl, rfl, rfl⟩ := h
      rcases List.mem_append.mp he with h1 | h1
      · obtain ⟨-, hb⟩ := mem_backoffEvents h1
        cases hb
      · obtain rfl := innerLoop_attempt_round f N r0 heq h1
        obtain ⟨hres, -⟩ :=
          innerLoop_propagate_at f N r2 _ _ _ _ _ _ i m heq h1 hf hrl
        cases hres
    · rename_i m1 s1 evts1 heq
      simp only [Prod.mk.injEq] at h
      obtain ⟨rfl, rfl, rfl⟩ := h
      rcases List.mem_append.mp he with h1 | h1
      · obtain ⟨-, hb⟩ := mem_backoffEvents h1
        cases hb
      · obtain rfl := innerLoop_attempt_round f N r0 heq h1
        obtain ⟨hres, pre1, hpre, hkeep⟩ :=
          innerLoop_propagate_at f N r2 _ _ _ _ _ _ i m heq h1 hf hrl
        obtain rfl := (InnerResult.propagate.inj hres).symm
        refine ⟨rfl, backoffEvents r2 ++ pre1, by simp [hpre], ?_⟩
        intro hnomark
        have h2 := hkeep fun u hu => hnomark u (by simp [hu])
        rw [h2, backoffState_keyCooldown]
    · rename_i kt1 s1 evts1 heq
      split at h
      · simp only [Prod.mk.injEq] at h
        obtain ⟨rfl, rfl, rfl⟩ := h
        rcases List.mem_append.mp he with h1 | h1
        · obtain ⟨-, hb⟩ := mem_backoffEvents h1
          cases hb
        · obtain rfl := innerLoop_attempt_round f N r0 heq h1
          obtain ⟨hres, -⟩ :=
            innerLoop_propagate_at f N r2 _ _ _ _ _ _ i m heq h1 hf hrl
          cases hres
      · rcases hrec : roundsLoop f N rest s1 with ⟨res3, s3, evts3⟩
        rw [hrec] at h
        simp only [addEvts_mk, Prod.mk.injEq] at h
        obtain ⟨rfl, rfl, rfl⟩ := h
        rcases List.mem_append.mp he with h1 | h1
        · rcases List.mem_append.mp h1 with h2 | h2
          · obtain ⟨-, hb⟩ := mem_backoffEvents h2
            cases hb
          · obtain rfl := innerLoop_attempt_round f N r0 heq h2
            obtain ⟨hres, -⟩ :=
              innerLoop_propagate_at f N r2 _ _ _ _ _ _ i m heq h2 hf hrl
            cases hres
        · obtain ⟨hres, pre3, hpre, hkeep3⟩ :=
            ih s1 res3 s3 evts3 r2 i m hrec h1 hf hrl
          refine ⟨hres, (backoffEvents r0 ++ evts1) ++ pre3,
            by simp [hpre], ?_⟩
          intro hnomark
          have hk1 : dictFind s1.keyCooldown i =
              dictFind s.keyCooldown i := by
            have := innerLoop_preserve_cd f N r0 _ _ _ _ _ _ i heq
              (fun t ht => by cases ht)
              (fun u hu => hnomark u (by simp [hu]))
            rw [this, backoffState_keyCooldown]
          have hk3 := hkeep3 fun u hu => hnomark u (by simp [hu])
          rw [hk3, hk1]

/-- When every attempt of the whole round loop came back rate-limited, the
loop activates the global cooldown (deadline = final clock + duration) and
fails with the quota-exhausted error. -/
theorem roundsLoop_rl_only (f : AttemptFn) (N : Nat) :
    ∀ (rs : List Nat) (s : GeminiState) res s2 evts,
      roundsLoop f N rs s = (res, s2, evts) →
      (∀ r2 i, Event.attemptKey r2 i ∈ evts →
        ∃ m, f r2 i = .failure m ∧ isRateLimited m = true) →
      res = .quotaExhausted (quotaExhaustedMsg N) ∧
        s2.globalCooldownUntil = s2.now + GLOBAL_COOLDOWN := by
  intro rs
  induction rs with
  | nil =>
    intro s res s2 evts h hall
    simp only [roundsLoop, Prod.mk.injEq] at h
    obtain ⟨rfl, rfl, rfl⟩ := h
    exact ⟨rfl, rfl⟩
  | cons r0 rest ih =>
    intro s res s2 evts h hall
    simp only [roundsLoop] at h
    split at h
    · rename_i t1 s1 evts1 heq
      simp only [Prod.mk.injEq] at h
      obtain ⟨rfl, rfl, rfl⟩ := h
      obtain ⟨kt2, hkt⟩ := innerLoop_rl_only f N r0 _ _ _ _ _ _ heq
        fun i hi => hall r0 i (List.mem_append.mpr (Or.inr hi))
      cases hkt
    · rename_i m1 s1 evts1 heq
      simp only [Prod.mk.injEq] at h
      obtain ⟨rfl, rfl, rfl⟩ := h
      obtain ⟨kt2, hkt⟩ := innerLoop_rl_only f N r0 _ _ _ _ _ _ heq
        fun i hi => hall r0 i (List.mem_append.mpr (Or.inr hi))
      cases hkt
    · rename_i kt1 s1 evts1 heq
      split at h
      · simp only [Prod.mk.injEq] at h
        obtain ⟨rfl, rfl, rfl⟩ := h
        exact ⟨rfl, rfl⟩
      · rcases hrec : roundsLoop f N rest s1 with ⟨res3, s3, evts3⟩
        rw [hrec] at h
        simp only [addEvts_mk, Prod.mk.injEq] at h
        obtain ⟨rfl, rfl, rfl⟩ := h
        exact ih s1 res3 s3 evts3 hrec
          fun r2 i hi => hall r2 i (List.mem_append.mpr (Or.inr hi))

/-- A rate-limited failed attempt leaves a cooldown mark in the trace. -/
theorem roundsLoop_mark_of_rl (f : AttemptFn) (N : Nat) :
    ∀ (rs : List Nat) (s : GeminiState) res s2 evts r2 i m,
      roundsLoop f N rs s = (res, s2, evts) →
      Event.attemptKey r2 i ∈ evts →
      f r2 i = .failure m →
      isRateLimited m = true →
      ∃ u, Event.markCooldown i u ∈ evts := by
  intro rs
  induction rs with
  | nil =>
    intro s res s2 evts r2 i m h he hf hrl
    simp only [roundsLoop, Prod.mk.injEq] at h
    obtain ⟨rfl, rfl, rfl⟩ := h
    simp at he
  | cons r0 rest ih =>
    intro s res s2 evts r2 i m h he hf hrl
    simp only [roundsLoop] at h
    split at h
    · rename_i t1 s1 evts1 heq
      simp only [Prod.mk.injEq] at h
      obtain ⟨rfl, rfl, rfl⟩ := h
      rcases List.mem_append.mp he with h1 | h1
      · obtain ⟨-, hb⟩ := mem_backoffEvents h1
        cases hb
      · obtain rfl := innerLoop_attempt_round f N r0 heq h1
        obtain ⟨u, hu⟩ := innerLoop_mark_of_rl f N r2 _ _ _ _ _ _ i m heq h1 hf hrl
        exact ⟨u, List.mem_append.mpr (Or.inr hu)⟩
    · rename_i m1 s1 evts1 heq
      simp only [Prod.mk.injEq] at h
      obtain ⟨rfl, rfl, rfl⟩ := h
      rcases List.mem_append.mp he with h1 | h1
      · obtain ⟨-, hb⟩ := mem_backoffEvents h1
        cases hb
      · obtain rfl := innerLoop_attempt_round f N r0 heq h1
        obtain ⟨u, hu⟩ := innerLoop_mark_of_rl f N r2 _ _ _ _ _ _ i m heq h1 hf hrl
        exact ⟨u, List.mem_append.mpr (Or.inr hu)⟩
    · rename_i kt1 s1 evts1 heq
      split at h
      · simp only [Prod.mk.injEq] at h
        obtain ⟨rfl, rfl, rfl⟩ := h
        rcases List.mem_append.mp he with h1 | h1
        · obtain ⟨-, hb⟩ := mem_backoffEvents h1
          cases hb
        · obtain rfl := innerLoop_attempt_round f N r0 heq h1
          obtain ⟨u, hu⟩ :=
            innerLoop_mark_of_rl f N r2 _ _ _ _ _ _ i m heq h1 hf hrl
          exact ⟨u, List.mem_append.mpr (Or.inr hu)⟩
      · rcases hrec : roundsLoop f N rest s1 with ⟨res3, s3, evts3⟩
        rw [hrec] at h
        simp only [addEvts_mk, Prod.mk.injEq] at h
        obtain ⟨rfl, rfl, rfl⟩ := h
        rcases List.mem_append.mp he with h1 | h1
        · rcases List.mem_append.mp h1 with h2 | h2
          · obtain ⟨-, hb⟩ := mem_backoffEvents h2
            cases hb
          · obtain rfl := innerLoop_attempt_round f N r0 heq h2
            obtain ⟨u, hu⟩ :=
              innerLoop_mark_of_rl f N r2 _ _ _ _ _ _ i m heq h2 hf hrl
            exact ⟨u, by simp [hu]⟩
        · obtain ⟨u, hu⟩ := ih s1 res3 s3 evts3 r2 i m hrec h1 hf hrl
          exact ⟨u, by simp [hu]⟩

/-- Whatever error the round loop raises is not classified rate-limited. -/
theorem roundsLoop_raised_rl_false (f : AttemptFn) (N : Nat) :
    ∀ (rs : List Nat) (s : GeminiState) res s2 evts m,
      roundsLoop f N rs s = (res, s2, evts) →
      res = .raised m →
      isRateLimited m = false := by
  intro rs
  induction rs with
  | nil =>
    intro s res s2 evts m h hres
    simp only [roundsLoop, Prod.mk.injEq] at h
    obtain ⟨rfl, rfl, rfl⟩ := h
    cases hres
  | cons r0 rest ih =>
    intro s res s2 evts m h hres
    simp only [roundsLoop] at h
    split at h
    · simp only [Prod.mk.injEq] at h
      obtain ⟨rfl, rfl, rfl⟩ := h
      cases hres
    · rename_i m1 s1 evts1 heq
      simp only [Prod.mk.injEq] at h
      obtain ⟨rfl, rfl, rfl⟩ := h
      obtain rfl := DispatchResult.raised.inj hres
      exact innerLoop_propagate_rl_false f N r0 _ _ _ _ _ _ _ heq rfl
    · split at h
      · simp only [Prod.mk.injEq] at h
        obtain ⟨rfl, rfl, rfl⟩ := h
        cases hres
      · rename_i kt1 s1 evts1 heq hkt
        rcases hrec : roundsLoop f N rest s1 with ⟨res3, s3, evts3⟩
        rw [hrec] at h
        simp only [addEvts_mk, Prod.mk.injEq] at h
        obtain ⟨rfl, rfl, rfl⟩ := h
        exact ih s1 res3 s3 evts3 m hrec hres

/-- The round loop keeps the rotation cursor below the pool size. -/
theorem roundsLoop_cursor (f : AttemptFn) (N : Nat) :
    ∀ (rs : List Nat) (s : GeminiState) res s2 evts,
      roundsLoop f N rs s = (res, s2, evts) →
      0 < N → s.currentKeyIndex < N → s2.currentKeyIndex < N := by
  intro rs
  induction rs with
  | nil =>
    intro s res s2 evts h hN hs
    simp only [roundsLoop, Prod.mk.injEq] at h
    obtain ⟨rfl, rfl, rfl⟩ := h
    exact hs
  | cons r0 rest ih =>
    intro s res s2 evts h hN hs
    simp only [roundsLoop] at h
    split at h
    · rename_i t1 s1 evts1 heq
      simp only [Prod.mk.injEq] at h
      obtain ⟨rfl, rfl, rfl⟩ := h
      exact innerLoop_cursor f N r0 _ _ _ _ _ _ heq hN (by simpa using hs)
    · rename_i m1 s1 evts1 heq
      simp only [Prod.mk.injEq] at h
      obtain ⟨rfl, rfl, rfl⟩ := h
      exact innerLoop_cursor f N r0 _ _ _ _ _ _ heq hN (by simpa using hs)
    · rename_i kt1 s1 evts1 heq
      split at h
      · simp only [Prod.mk.injEq] at h
        obtain ⟨rfl, rfl, rfl⟩ := h
        have h1 := innerLoop_cursor f N r0 _ _ _ _ _ _ heq hN (by simpa using hs)
        simpa using h1
      · rcases hrec : roundsLoop f N rest s1 with ⟨res3, s3, evts3⟩
        rw [hrec] at h
        simp only [addEvts_mk, Prod.mk.injEq] at h
        obtain ⟨rfl, rfl, rfl⟩ := h
        exact ih s1 res3 s3 evts3 hrec hN
          (innerLoop_cursor f N r0 _ _ _ _ _ _ heq hN (by simpa using hs))

/-- Every backoff event of the round loop belongs to one of its rounds, has
a positive round number, and carries the round's backoff delay. -/
theorem roundsLoop_backoff_mem (f : AttemptFn) (N : Nat) :
    ∀ (rs : List Nat) (s : GeminiState) res s2 evts r2 w,
      roundsLoop f N rs s = (res, s2, evts) →
      Event.backoff r2 w ∈ evts →
      r2 ∈ rs ∧ 0 < r2 ∧ w = backoffSeconds r2 := by
  intro rs
  induction rs with
  | nil =>
    intro s res s2 evts r2 w h he
    simp only [roundsLoop, Prod.mk.injEq] at h
    obtain ⟨rfl, rfl, rfl⟩ := h
    simp at he
  | cons r0 rest ih =>
    intro s res s2 evts r2 w h he
    simp only [roundsLoop] at h
    split at h
    · rename_i t1 s1 evts1 heq
      simp only [Prod.mk.injEq] at h
      obtain ⟨rfl, rfl, rfl⟩ := h
      rcases List.mem_append.mp he with h1 | h1
      · obtain ⟨hr, hb⟩ := mem_backoffEvents h1
        obtain ⟨rfl, rfl⟩ := Event.backoff.inj hb
        exact ⟨List.mem_cons_self _ _, hr, rfl⟩
      · exact absurd h1 (innerLoop_no_backoff f N r0 heq)
    · rename_i m1 s1 evts1 heq
      simp only [Prod.mk.injEq] at h
      obtain ⟨rfl, rfl, rfl⟩ := h
      rcases List.mem_append.mp he with h1 | h1
      · obtain ⟨hr, hb⟩ := mem_backoffEvents h1
        obtain ⟨rfl, rfl⟩ := Event.backoff.inj hb
        exact ⟨List.mem_cons_self _ _, hr, rfl⟩
      · exact absurd h1 (innerLoop_no_backoff f N r0 heq)
    · rename_i kt1 s1 evts1 heq
      split at h
      · simp only [Prod.mk.injEq] at h
        obtain ⟨rfl, rfl, rfl⟩ := h
        rcases List.mem_append.mp he with h1 | h1
        · obtain ⟨hr, hb⟩ := mem_backoffEvents h1
          obtain ⟨rfl, rfl⟩ := Event.backoff.inj hb
          exact ⟨List.mem_cons_self _ _, hr, rfl⟩
        · exact absurd h1 (innerLoop_no_backoff f N r0 heq)
      · rcases hrec : roundsLoop f N rest s1 with ⟨res3, s3, evts3⟩
        rw [hrec] at h
        simp only [addEvts_mk, Prod.mk.injEq] at h
        obtain ⟨rfl, rfl, rfl⟩ := h
        rcases List.mem_append.mp he with h1 | h1
        · rcases List.mem_append.mp h1 with h2 | h2
          · obtain ⟨hr, hb⟩ := mem_backoffEvents h2
            obtain ⟨rfl, rfl⟩ := Event.backoff.inj hb
            exact ⟨List.mem_cons_self _ _, hr, rfl⟩
          · exact absurd h2 (innerLoop_no_backoff f N r0 heq)
        · obtain ⟨hmem, hr, hw⟩ := ih s1 res3 s3 evts3 r2 w hrec h1
          exact ⟨List.mem_cons_of_mem _ hmem, hr, hw⟩

/-- An attempt in a positive round is preceded by that round's backoff
sleep: the backoff event for the round is in the trace. -/
theorem roundsLoop_attempt_backoff (f : AttemptFn) (N : Nat) :
    ∀ (rs : List Nat) (s : GeminiState) res s2 evts r2 i,
      roundsLoop f N rs s = (res, s2, evts) →
      Event.attemptKey r2 i ∈ evts →
      0 < r2 →
      Event.backoff r2 (backoffSeconds r2) ∈ evts := by
  intro rs
  induction rs with
  | nil =>
    intro s res s2 evts r2 i h he hr
    simp only [roundsLoop, Prod.mk.injEq] at h
    obtain ⟨rfl, rfl, rfl⟩ := h
    simp at he
  | cons r0 rest ih =>
    intro s res s2 evts r2 i h he hr
    simp only [roundsLoop] at h
    split at h
    · rename_i t1 s1 evts1 heq
      simp only [Prod.mk.injEq] at h
      obtain ⟨rfl, rfl, rfl⟩ := h
      rcases List.mem_append.mp he with h1 | h1
      · obtain ⟨-, hb⟩ := mem_backoffEvents h1
        cases hb
      · obtain rfl := innerLoop_attempt_round f N r0 heq h1
        exact List.mem_append.mpr (Or.inl (by simp [backoffEvents_pos hr]))
    · rename_i m1 s1 evts1 heq
      simp only [Prod.mk.injEq] at h
      obtain ⟨rfl, rfl, rfl⟩ := h
      rcases List.mem_append.mp he with h1 | h1
      · obtain ⟨-, hb⟩ := mem_backoffEvents h1
        cases hb
      · obtain rfl := innerLoop_attempt_round f N r0 heq h1
        exact List.mem_append.mpr (Or.inl (by simp [backoffEvents_pos hr]))
    · rename_i kt1 s1 evts1 heq
      split at h
      · simp only [Prod.mk.injEq] at h
        obtain ⟨rfl, rfl, rfl⟩ := h
        rcases List.mem_append.mp he with h1 | h1
        · obtain ⟨-, hb⟩ := mem_backoffEvents h1
          cases hb
        · obtain rfl := innerLoop_attempt_round f N r0 heq h1
          exact List.mem_append.mpr (Or.inl (by simp [backoffEvents_pos hr]))
      · rcases hrec : roundsLoop f N rest s1 with ⟨res3, s3, evts3⟩
        rw [hrec] at h
        simp only [addEvts_mk, Prod.mk.injEq] at h
        obtain ⟨rfl, rfl, rfl⟩ := h
        rcases List.mem_append.mp he with h1 | h1
        · rcases List.mem_append.mp h1 with h2 | h2
          · obtain ⟨-, hb⟩ := mem_backoffEvents h2
            cases hb
          · obtain rfl := innerLoop_attempt_round f N r0 heq h2
            exact List.mem_append.mpr
              (Or.inl (List.mem_append.mpr (Or.inl (by simp [backoffEvents_pos hr]))))
        · exact List.mem_append.mpr
            (Or.inr (ih s1 res3 s3 evts3 r2 i hrec h1 hr))

/-- The round loop sleeps at most once per round number: over a run whose
round list has no duplicates, at most one backoff event per round. -/
theorem roundsLoop_backoff_count (f : AttemptFn) (N : Nat) :
    ∀ (rs : List Nat) (s : GeminiState) res s2 evts r2,
      rs.Nodup →
      roundsLoop f N rs s = (res, s2, evts) →
      evts.countP (isBackoffRound r2) ≤ 1 := by
  intro rs
  induction rs with
  | nil =>
    intro s res s2 evts r2 hnd h
    simp only [roundsLoop, Prod.mk.injEq] at h
    obtain ⟨rfl, rfl, rfl⟩ := h
    simp
  | cons r0 rest ih =>
    intro s res s2 evts r2 hnd h
    obtain ⟨hr0, hndr⟩ := List.nodup_cons.mp hnd
    have hpre : (backoffEvents r0).countP (isBackoffRound r2) ≤ 1 :=
      le_trans (List.countP_le_length _) (by unfold backoffEvents; split <;> simp)
    simp only [roundsLoop] at h
    split at h
    · rename_i t1 s1 evts1 heq
      simp only [Prod.mk.injEq] at h
      obtain ⟨rfl, rfl, rfl⟩ := h
      have h1 : evts1.countP (isBackoffRound r2) = 0 :=
        List.countP_eq_zero.mpr fun e hee hbe => by
          obtain ⟨w, rfl⟩ := isBackoffRound_true.mp hbe
          exact innerLoop_no_backoff f N r0 heq hee
      rw [List.countP_append, h1]
      omega
    · rename_i m1 s1 evts1 heq
      simp only [Prod.mk.injEq] at h
      obtain ⟨rfl, rfl, rfl⟩ := h
      have h1 : evts1.countP (isBackoffRound r2) = 0 :=
        List.countP_eq_zero.mpr fun e hee hbe => by
          obtain ⟨w, rfl⟩ := isBackoffRound_true.mp hbe
          exact innerLoop_no_backoff f N r0 heq hee
      rw [List.countP_append, h1]
      omega
    · rename_i kt1 s1 evts1 heq
      split at h
      · simp only [Prod.mk.injEq] at h
        obtain ⟨rfl, rfl, rfl⟩ := h
        have h1 : evts1.countP (isBackoffRound r2) = 0 :=
          List.countP_eq_zero.mpr fun e hee hbe => by
            obtain ⟨w, rfl⟩ := isBackoffRound_true.mp hbe
            exact innerLoop_no_backoff f N r0 heq hee
        rw [List.countP_append, h1]
        omega
      · rcases hrec : roundsLoop f N rest s1 with ⟨res3, s3, evts3⟩
        rw [hrec] at h
        simp only [addEvts_mk, Prod.mk.injEq] at h
        obtain ⟨rfl, rfl, rfl⟩ := h
        have h1 : evts1.countP (isBackoffRound r2) = 0 :=
          List.countP_eq_zero.mpr fun e hee hbe => by
            obtain ⟨w, rfl⟩ := isBackoffRound_true.mp hbe
            exact innerLoop_no_backoff f N r0 heq hee
        by_cases hr2 : r2 = r0
        · subst hr2
          have h3 : evts3.countP (isBackoffRound r2) = 0 :=
            List.countP_eq_zero.mpr fun e hee hbe => by
              obtain ⟨w, rfl⟩ := isBackoffRound_true.mp hbe
              obtain ⟨hmem, -, -⟩ := roundsLoop_backoff_mem f N rest s1
                res3 s3 evts3 r2 w hrec hee
              exact hr0 hmem
          rw [List.countP_append, List.countP_append, h1, h3]
          omega
        · have hp0 : (backoffEvents r0).countP (isBackoffRound r2) = 0 :=
            List.countP_eq_zero.mpr fun e hee hbe => by
              obtain ⟨w, rfl⟩ := isBackoffRound_true.mp hbe
              obtain ⟨-, hb⟩ := mem_backoffEvents hee
              exact hr2 (Event.backoff.inj hb).1
          have h3 := ih s1 res3 s3 evts3 r2 hndr hrec
          rw [List.countP_append, List.countP_append, h1, hp0]
          omega

/-- Starting from any cursor value, some offset below N lands on any wanted
residue i below N. -/
theorem exists_offset_mod (c i N : Nat) (hN : 0 < N) (hi : i < N) :
    ∃ a, a < N ∧ (c + a) % N = i := by
  have hc : c % N < N := Nat.mod_lt _ hN
  have hle : c % N ≤ c := Nat.mod_le _ _
  refine ⟨(i + N - c % N) % N, Nat.mod_lt _ hN, ?_⟩
  rw [Nat.add_mod_mod]
  have hdm := Nat.div_add_mod c N
  have h2 : c + (i + N - c % N) = i + N + N * (c / N) := by omega
  rw [h2, Nat.add_mul_mod_self_left, Nat.add_mod_right]
  exact Nat.mod_eq_of_lt hi

/-- When the global cooldown is clear but every key is in individual
cooldown, the first round skips everything, the early-exit fires, and the
loop activates the global cooldown without attempting anything. -/
theorem roundsLoop_all_cooldown (f : AttemptFn) (N : Nat) (s : GeminiState)
    (hN : 0 < N)
    (hall : ∀ j, j < N → s.now < (dictFind s.keyCooldown j).getD 0)
    (rest : List Nat) :
    roundsLoop f N (0 :: rest) s =
      (.quotaExhausted (quotaExhaustedMsg N),
       { s with globalCooldownUntil := s.now + GLOBAL_COOLDOWN },
       (List.range N).map (fun a => Event.skipKey ((s.currentKeyIndex + a) % N))) := by
  have hb : backoffState s 0 = s := by simp [backoffState]
  simp only [roundsLoop, hb,
    innerLoop_all_cooldown f N 0 s hN hall (List.range N) 0]
  simp [backoffEvents]

/-- When key i is the only key not in individual cooldown and its attempt in
round 0 succeeds, the round loop returns that result with only skips before
the single throttled attempt. -/
theorem roundsLoop_only_avail (f : AttemptFn) (N i : Nat) (t : String)
    (hN : 0 < N) (hi : i < N) (s : GeminiState)
    (honly : ∀ j, j < N → j ≠ i → s.now < (dictFind s.keyCooldown j).getD 0)
    (havail : ¬ s.now < (dictFind s.keyCooldown i).getD 0)
    (hf : f 0 i = .success t) (rest : List Nat) :
    ∃ skipped : List Nat, roundsLoop f N (0 :: rest) s =
      (.ok t, successState (throttleRequest s) i N,
       skipped.map Event.skipKey ++ [Event.throttle, Event.attemptKey 0 i]) ∧
      ∀ j ∈ skipped, j ≠ i := by
  obtain ⟨a, haN, ha⟩ := exists_offset_mod s.currentKeyIndex i N hN hi
  obtain ⟨skipped, heq, hsk⟩ := innerLoop_only_avail f N 0 i t hN s honly
    havail hf (List.range N) 0 ⟨a, List.mem_range.mpr haN, ha⟩
  refine ⟨skipped, ?_, hsk⟩
  have hb : backoffState s 0 = s := by simp [backoffState]
  simp only [roundsLoop, hb, heq]
  simp [backoffEvents]

/-!  The top-level dispatcher.  -/

/-- With a non-empty pool and no active global cooldown, the dispatcher is
the round loop. -/
theorem callGemini_runs (f : AttemptFn) (keys : List String) (maxRounds : Nat)
    (s : GeminiState) (hkeys : keys ≠ [])
    (hgc : s.globalCooldownUntil ≤ s.now) :
    callGeminiWithRotation f keys maxRounds s =
      roundsLoop f keys.length (List.range maxRounds) s := by
  have h1 : keys.isEmpty = false := by
    cases keys with
    | nil => exact absurd rfl hkeys
    | cons x xs => rfl
  have h2 : isInGlobalCooldown s = (false, 0) := by
    unfold isInGlobalCooldown
    rw [if_neg (Nat.not_lt.mpr hgc)]
  simp [callGeminiWithRotation, h1, h2]

/-!  The claims.  -/

/-- C1: for every non-empty pool and credential index i, if dispatch
attempted credential i (in some round r) and that attempt succeeded, then
the result is that attempt's response, the rotation cursor becomes
(i+1) mod N, credential i's cooldown entry is removed, and the attempt on i
is the final event of the run — no further credential or round is tried. -/
theorem claim_C1_success_advances_cursor (f : AttemptFn) (keys : List String)
    (maxRounds : Nat) (s : GeminiState) (res : DispatchResult)
    (s2 : GeminiState) (evts : List Event) (r i : Nat) (t : String)
    (_hkeys : keys ≠ [])
    (h : callGeminiWithRotation f keys maxRounds s = (res, s2, evts))
    (hatt : Event.attemptKey r i ∈ evts)
    (hf : f r i = .success t) :
    res = .ok t ∧ s2.currentKeyIndex = (i + 1) % keys.length ∧
      dictFind s2.keyCooldown i = none ∧
      ∃ pre, evts = pre ++ [Event.throttle, Event.attemptKey r i] := by
  unfold callGeminiWithRotation at h
  split at h
  · simp only [Prod.mk.injEq] at h
    obtain ⟨rfl, rfl, rfl⟩ := h
    simp at hatt
  · split at h
    · simp only [Prod.mk.injEq] at h
      obtain ⟨rfl, rfl, rfl⟩ := h
      simp at hatt
    · exact roundsLoop_success_at f keys.length (List.range maxRounds)
        s res s2 evts r i t h hatt hf

/-- Concrete instance of C1: pool of two keys, the first attempt succeeds. -/
def c1run : DispatchResult × GeminiState × List Event :=
  callGeminiWithRotation (fun _ _ => .success "hi") ["a", "b"] 3 (initState 0)

theorem claim_C1_witness :
    c1run.1 = .ok "hi" ∧
    c1run.2.1.currentKeyIndex = (0 + 1) % (["a", "b"] : List String).length ∧
    dictFind c1run.2.1.keyCooldown 0 = none ∧
    ∃ pre, c1run.2.2 = pre ++ [Event.throttle, Event.attemptKey 0 0] :=
  claim_C1_success_advances_cursor (fun _ _ => .success "hi") ["a", "b"] 3
    (initState 0) c1run.1 c1run.2.1 c1run.2.2 0 0 "hi"
    (by simp) rfl (by decide) rfl

/-- C2: for every non-empty pool, when dispatch actually entered its rounds
(at least one attempt per round below maxRounds) and every attempt it made
came back as a rate-limited error, the call raises QuotaExhaustedError and
leaves the global cooldown armed to the final clock plus GLOBAL_COOLDOWN
(120 seconds). -/
theorem claim_C2_all_rl_sets_global_cooldown (f : AttemptFn)
    (keys : List String) (maxRounds : Nat) (s : GeminiState)
    (res : DispatchResult) (s2 : GeminiState) (evts : List Event)
    (hkeys : keys ≠ []) (hmax : 0 < maxRounds)
    (h : callGeminiWithRotation f keys maxRounds s = (res, s2, evts))
    (hrl : ∀ r i, Event.attemptKey r i ∈ evts →
      ∃ m, f r i = .failure m ∧ isRateLimited m = true)
    (hper : ∀ r, r < maxRounds → ∃ i, Event.attemptKey r i ∈ evts) :
    res = .quotaExhausted (quotaExhaustedMsg keys.length) ∧
      s2.globalCooldownUntil = s2.now + GLOBAL_COOLDOWN := by
  unfold callGeminiWithRotation at h
  split at h
  · rename_i hemp
    rw [List.isEmpty_iff] at hemp
    exact absurd hemp hkeys
  · split at h
    · simp only [Prod.mk.injEq] at h
      obtain ⟨rfl, rfl, rfl⟩ := h
      obtain ⟨i, hi⟩ := hper 0 hmax
      simp at hi
    · exact roundsLoop_rl_only f keys.length (List.range maxRounds)
        s res s2 evts h hrl

/-- Concrete instance of C2: one key, one round, a 429 on the only
attempt. -/
def c2run : DispatchResult × GeminiState × List Event :=
  callGeminiWithRotation (fun _ _ => .failure "429") ["k"] 1 (initState 0)

theorem claim_C2_witness :
    c2run.1 = .quotaExhausted (quotaExhaustedMsg (["k"] : List String).length) ∧
    c2run.2.1.globalCooldownUntil = c2run.2.1.now + GLOBAL_COOLDOWN :=
  claim_C2_all_rl_sets_global_cooldown (fun _ _ => .failure "429") ["k"] 1
    (initState 0) c2run.1 c2run.2.1 c2run.2.2
    (by simp) (by decide) rfl
    (fun r i _ => ⟨"429", rfl, by decide⟩)
    (fun r hr => ⟨0, by interval_cases r; decide⟩)

/-- C3 as frozen is false on the code: with an empty pool, dispatch raises
the configuration ValueError even while the global cooldown is strictly in
the future, not QuotaExhaustedError. -/
theorem claim_C3_counterexample :
    (callGeminiWithRotation (fun _ _ => .success "t") [] 3
        { currentKeyIndex := 0, keyCooldown := [], globalCooldownUntil := 100,
          lastRequestTime := 0, now := 5 }).1 =
      .configError "No Gemini API keys configured!" ∧
    ∀ msg, (callGeminiWithRotation (fun _ _ => .success "t") [] 3
        { currentKeyIndex := 0, keyCooldown := [], globalCooldownUntil := 100,
          lastRequestTime := 0, now := 5 }).1 ≠ .quotaExhausted msg := by
  refine ⟨rfl, fun msg hmsg => ?_⟩
  have he : (callGeminiWithRotation (fun _ _ => .success "t") [] 3
      { currentKeyIndex := 0, keyCooldown := [], globalCooldownUntil := 100,
        lastRequestTime := 0, now := 5 }).1 =
      DispatchResult.configError "No Gemini API keys configured!" := rfl
  rw [he] at hmsg
  exact DispatchResult.noConfusion hmsg

/-- C3 (amended: non-empty pool): whenever the global cooldown deadline is
strictly in the future at entry, dispatch raises QuotaExhaustedError
reporting the remaining seconds, leaves the whole state untouched, and emits
no event at all — in particular the attempt function is never invoked and no
per-key cooldown is read or written. -/
theorem claim_C3_global_cooldown_blocks (f : AttemptFn) (keys : List String)
    (maxRounds : Nat) (s : GeminiState)
    (hkeys : keys ≠ []) (hgc : s.now < s.globalCooldownUntil) :
    callGeminiWithRotation f keys maxRounds s =
      (.quotaExhausted (globalCooldownMsg (s.globalCooldownUntil - s.now)),
       s, []) := by
  have h1 : keys.isEmpty = false := by
    cases keys with
    | nil => exact absurd rfl hkeys
    | cons x xs => rfl
  have h2 : isInGlobalCooldown s = (true, s.globalCooldownUntil - s.now) := by
    unfold isInGlobalCooldown
    rw [if_pos hgc]
  simp [callGeminiWithRotation, h1, h2]

theorem claim_C3_witness :
    callGeminiWithRotation (fun _ _ => .success "t") ["k"] 3
        { currentKeyIndex := 0, keyCooldown := [], globalCooldownUntil := 100,
          lastRequestTime := 0, now := 5 } =
      (.quotaExhausted (globalCooldownMsg (100 - 5)),
       { currentKeyIndex := 0, keyCooldown := [], globalCooldownUntil := 100,
         lastRequestTime := 0, now := 5 }, []) :=
  claim_C3_global_cooldown_blocks (fun _ _ => .success "t") ["k"] 3
    { currentKeyIndex := 0, keyCooldown := [], globalCooldownUntil := 100,
      lastRequestTime := 0, now := 5 } (by simp) (by decide)

/-- C4: when dispatch attempted credential i and the attempt raised an error
not classified rate-limited, the dispatcher re-raises exactly that error at
once: the attempt on i is the last event of the run (no later credential in
the round, no further round), and unless an earlier step had marked i, key
i's cooldown entry is untouched. -/
theorem claim_C4_other_error_propagates (f : AttemptFn) (keys : List String)
    (maxRounds : Nat) (s : GeminiState) (res : DispatchResult)
    (s2 : GeminiState) (evts : List Event) (r i : Nat) (m : String)
    (_hkeys : keys ≠ [])
    (h : callGeminiWithRotation f keys maxRounds s = (res, s2, evts))
    (hatt : Event.attemptKey r i ∈ evts)
    (hf : f r i = .failure m)
    (hrl : isRateLimited m = false) :
    res = .raised m ∧
      ∃ pre, evts = pre ++ [Event.throttle, Event.attemptKey r i] ∧
        ((∀ u, Event.markCooldown i u ∉ pre) →
          dictFind s2.keyCooldown i = dictFind s.keyCooldown i) := by
  unfold callGeminiWithRotation at h
  split at h
  · simp only [Prod.mk.injEq] at h
    obtain ⟨rfl, rfl, rfl⟩ := h
    simp at hatt
  · split at h
    · simp only [Prod.mk.injEq] at h
      obtain ⟨rfl, rfl, rfl⟩ := h
      simp at hatt
    · exact roundsLoop_propagate_at f keys.length (List.range maxRounds)
        s res s2 evts r i m h hatt hf hrl

/-- Concrete instance of C4: pool [A, B], A raises a non-rate-limit error;
the trace shows B is never attempted. -/
def c4run : DispatchResult × GeminiState × List Event :=
  callGeminiWithRotation (fun _ i => if i = 0 then .failure "boom"
    else .success "x") ["A", "B"] 3 (initState 0)

theorem claim_C4_witness :
    c4run.1 = .raised "boom" ∧
    ∃ pre, c4run.2.2 = pre ++ [Event.throttle, Event.attemptKey 0 0] ∧
      ((∀ u, Event.markCooldown 0 u ∉ pre) →
        dictFind c4run.2.1.keyCooldown 0 = dictFind (initState 0).keyCooldown 0) :=
  claim_C4_other_error_propagates
    (fun _ i => if i = 0 then .failure "boom" else .success "x") ["A", "B"] 3
    (initState 0) c4run.1 c4run.2.1 c4run.2.2 0 0 "boom"
    (by simp) rfl (by decide) rfl (by decide)

/-- When no model gets a 200, the OpenRouter loop ends in an error. -/
theorem openRouterLoop_all_fail (attempt : String → ORResponse) :
    ∀ (models : List String) (lastErr : Option String),
      (∀ mdl ∈ models, isORSuccess (attempt mdl) = false) →
      ∃ e, openRouterLoop attempt models lastErr = .error e := by
  intro models
  induction models with
  | nil =>
    intro lastErr hall
    cases lastErr with
    | none => exact ⟨"All OpenRouter models failed", rfl⟩
    | some e => exact ⟨e, rfl⟩
  | cons mdl rest ih =>
    intro lastErr hall
    have hm := hall mdl (List.mem_cons_self _ _)
    rcases hmat : attempt mdl with ⟨status, body⟩ | e
    · rw [hmat] at hm
      have hst : status ≠ 200 := by
        intro h200
        rw [h200] at hm
        simp [isORSuccess] at hm
      simp only [openRouterLoop, hmat, if_neg hst]
      exact ih _ fun mdl2 h2 => hall mdl2 (List.mem_cons_of_mem _ h2)
    · simp only [openRouterLoop, hmat]
      exact ih _ fun mdl2 h2 => hall mdl2 (List.mem_cons_of_mem _ h2)

/-- C5 as frozen is false on the code: when the primary path is absent and
every secondary model fails, the terminal exception is the fixed message of
app.py:412, which does not carry the last underlying error (the last
secondary failure here is the string fail google/gemma-3-4b-it:free, and no
part of it, not even fail, occurs in the raised message). -/
theorem claim_C5_counterexample :
    analyzeImage (fun _ _ => .failure "primary down") [] 3 (initState 0) "sk"
        (fun mdl => .exn ("fail " ++ mdl)) =
      .error ALL_PROVIDERS_FAILED_MSG ∧
    callOpenRouterFallback "sk" (fun mdl => .exn ("fail " ++ mdl)) =
      .error ("fail " ++ "google/gemma-3-4b-it:free") ∧
    strContains ALL_PROVIDERS_FAILED_MSG "fail" = false := by
  refine ⟨rfl, rfl, by decide⟩

/-- C5 (amended): when the primary dispatcher yields no text (or the pool is
empty) and every secondary model fails, analyze raises exactly one terminal
error whose message is the fixed string of app.py:412 — it does not carry
the last underlying error; and the call always returns either a text or one
error, never a partial result. -/
theorem claim_C5_terminal_error_fixed (f : AttemptFn)
    (geminiKeys : List String) (maxRounds : Nat) (s : GeminiState)
    (orKey : String) (orAttempt : String → ORResponse)
    (hprim : ∀ t, (callGeminiWithRotation f geminiKeys maxRounds s).1 ≠
      DispatchResult.ok t)
    (hsec : ∀ mdl ∈ OPENROUTER_FREE_MODELS, isORSuccess (orAttempt mdl) = false) :
    analyzeImage f geminiKeys maxRounds s orKey orAttempt =
      .error ALL_PROVIDERS_FAILED_MSG := by
  have hprimary :
      (if geminiKeys.isEmpty then (none : Option String)
       else
        match callGeminiWithRotation f geminiKeys maxRounds s with
        | (.ok t, _, _) => some t
        | _ => none) = none := by
    split
    · rfl
    · rcases hrun : callGeminiWithRotation f geminiKeys maxRounds s with
        ⟨res, s2, evts⟩
      have hne := hprim
      rw [hrun] at hne
      cases res with
      | ok t => exact absurd rfl (hne t)
      | quotaExhausted m => rfl
      | raised m => rfl
      | configError m => rfl
  unfold analyzeImage
  rw [hprimary]
  by_cases hk : orKey = ""
  · simp [hk]
  · rw [if_neg hk]
    unfold callOpenRouterFallback
    rw [if_neg hk]
    obtain ⟨e, he⟩ := openRouterLoop_all_fail orAttempt
      OPENROUTER_FREE_MODELS none hsec
    rw [he]

theorem claim_C5_witness :
    analyzeImage (fun _ _ => .failure "primary down") [] 3 (initState 0) "sk"
        (fun mdl => .exn ("net " ++ mdl)) =
      .error ALL_PROVIDERS_FAILED_MSG :=
  claim_C5_terminal_error_fixed (fun _ _ => .failure "primary down") [] 3
    (initState 0) "sk" (fun mdl => .exn ("net " ++ mdl))
    (fun t ht => DispatchResult.noConfusion
      (Eq.mp (congrArg (fun x => x = DispatchResult.ok t) rfl) ht))
    (by decide)

/-- C6: when the global cooldown is clear and credential i is the only one
whose individual cooldown is not active, dispatch attempts exactly
credential i — whatever the rotation cursor — throttling once, skipping only
keys other than i, and returns i's successful result with the success state
update applied. -/
theorem claim_C6_only_available_key_selected (f : AttemptFn)
    (keys : List String) (maxRounds : Nat) (s : GeminiState) (i : Nat)
    (t : String)
    (hN : 0 < keys.length) (hi : i < keys.length) (hmax : 0 < maxRounds)
    (hgc : s.globalCooldownUntil ≤ s.now)
    (honly : ∀ j, j < keys.length → j ≠ i →
      s.now < (dictFind s.keyCooldown j).getD 0)
    (havail : ¬ s.now < (dictFind s.keyCooldown i).getD 0)
    (hf : f 0 i = .success t) :
    ∃ skipped : List Nat,
      callGeminiWithRotation f keys maxRounds s =
        (.ok t, successState (throttleRequest s) i keys.length,
         skipped.map Event.skipKey ++ [Event.throttle, Event.attemptKey 0 i]) ∧
      ∀ j ∈ skipped, j ≠ i := by
  have hkeys : keys ≠ [] := by
    intro h0
    rw [h0] at hN
    simp at hN
  rw [callGemini_runs f keys maxRounds s hkeys hgc]
  obtain ⟨mr, rfl⟩ : ∃ mr, maxRounds = mr + 1 := ⟨maxRounds - 1, by omega⟩
  rw [List.range_succ_eq_map]
  exact roundsLoop_only_avail f keys.length i t hN hi s honly havail hf _

/-- Concrete instance of C6: three keys, cursor at 0, keys 0 and 2 in
cooldown, key 1 succeeds. -/
theorem claim_C6_witness :
    ∃ skipped : List Nat,
      callGeminiWithRotation
          (fun r i => if r = 0 && i = 1 then .success "win" else .failure "429")
          ["a", "b", "c"] 3 ⟨0, [(0, 50), (2, 70)], 0, 0, 10⟩ =
        (.ok "win",
         successState (throttleRequest ⟨0, [(0, 50), (2, 70)], 0, 0, 10⟩) 1
           (["a", "b", "c"] : List String).length,
         skipped.map Event.skipKey ++ [Event.throttle, Event.attemptKey 0 1]) ∧
      ∀ j ∈ skipped, j ≠ 1 :=
  claim_C6_only_available_key_selected
    (fun r i => if r = 0 && i = 1 then .success "win" else .failure "429")
    ["a", "b", "c"] 3 ⟨0, [(0, 50), (2, 70)], 0, 0, 10⟩ 1 "win"
    (by decide) (by decide) (by decide) (by decide)
    (by
      intro j hj hji
      have hj3 : j < 3 := by simpa using hj
      clear hj
      interval_cases j
      · decide
      · exact absurd rfl hji
      · decide)
    (by decide) rfl

/-- C7: backoff sleeps of a dispatch call follow the schedule of app.py:172:
every backoff event has a positive round number below maxRounds and duration
min(15 * 2^(round-1), 60); there is at most one backoff sleep per round (not
one per credential); and every attempt in a positive round happens in a run
whose trace contains that round's backoff sleep. -/
theorem claim_C7_backoff_schedule (f : AttemptFn) (keys : List String)
    (maxRounds : Nat) (s : GeminiState) (res : DispatchResult)
    (s2 : GeminiState) (evts : List Event)
    (h : callGeminiWithRotation f keys maxRounds s = (res, s2, evts)) :
    (∀ r w, Event.backoff r w ∈ evts →
      0 < r ∧ r < maxRounds ∧ w = min (15 * 2 ^ (r - 1)) 60) ∧
    (∀ r, evts.countP (isBackoffRound r) ≤ 1) ∧
    (∀ r i, Event.attemptKey r i ∈ evts → 0 < r →
      Event.backoff r (min (15 * 2 ^ (r - 1)) 60) ∈ evts) := by
  unfold callGeminiWithRotation at h
  split at h
  · simp only [Prod.mk.injEq] at h
    obtain ⟨rfl, rfl, rfl⟩ := h
    exact ⟨fun r w hw => absurd hw (List.not_mem_nil _),
      fun r => by simp,
      fun r i hi => absurd hi (List.not_mem_nil _)⟩
  · split at h
    · simp only [Prod.mk.injEq] at h
      obtain ⟨rfl, rfl, rfl⟩ := h
      exact ⟨fun r w hw => absurd hw (List.not_mem_nil _),
        fun r => by simp,
        fun r i hi => absurd hi (List.not_mem_nil _)⟩
    · refine ⟨?_, ?_, ?_⟩
      · intro r w hw
        obtain ⟨hmem, hr, hwv⟩ := roundsLoop_backoff_mem f keys.length
          (List.range maxRounds) s res s2 evts r w h hw
        exact ⟨hr, List.mem_range.mp hmem, hwv⟩
      · intro r
        exact roundsLoop_backoff_count f keys.length (List.range maxRounds)
          s res s2 evts r (List.nodup_range _) h
      · intro r i hi hr
        exact roundsLoop_attempt_backoff f keys.length (List.range maxRounds)
          s res s2 evts r i h hi hr

/-- Concrete instance of C7: a run whose trace has backoff sleeps before
rounds 1 and 2 and an attempt during round 1. -/
def c7run : DispatchResult × GeminiState × List Event :=
  callGeminiWithRotation (fun _ _ => .failure "429") ["a", "b"] 3
    ⟨0, [(1, 12)], 0, 0, 10⟩

theorem claim_C7_witness :
    (∀ r w, Event.backoff r w ∈ c7run.2.2 →
      0 < r ∧ r < 3 ∧ w = min (15 * 2 ^ (r - 1)) 60) ∧
    (∀ r, c7run.2.2.countP (isBackoffRound r) ≤ 1) ∧
    (∀ r i, Event.attemptKey r i ∈ c7run.2.2 → 0 < r →
      Event.backoff r (min (15 * 2 ^ (r - 1)) 60) ∈ c7run.2.2) :=
  claim_C7_backoff_schedule (fun _ _ => .failure "429") ["a", "b"] 3
    ⟨0, [(1, 12)], 0, 0, 10⟩ c7run.1 c7run.2.1 c7run.2.2 rfl

/-- C8: the rotation cursor starts at 0 and stays a valid pool index across
every dispatch call on a non-empty pool. -/
theorem claim_C8_cursor_invariant :
    (∀ n, (initState n).currentKeyIndex = 0) ∧
    ∀ (f : AttemptFn) (keys : List String) (maxRounds : Nat)
      (s : GeminiState) res s2 evts,
      0 < keys.length → s.currentKeyIndex < keys.length →
      callGeminiWithRotation f keys maxRounds s = (res, s2, evts) →
      s2.currentKeyIndex < keys.length := by
  refine ⟨fun n => rfl, ?_⟩
  intro f keys maxRounds s res s2 evts hN hs h
  unfold callGeminiWithRotation at h
  split at h
  · simp only [Prod.mk.injEq] at h
    obtain ⟨rfl, rfl, rfl⟩ := h
    exact hs
  · split at h
    · simp only [Prod.mk.injEq] at h
      obtain ⟨rfl, rfl, rfl⟩ := h
      exact hs
    · exact roundsLoop_cursor f keys.length (List.range maxRounds)
        s res s2 evts h hN hs

/-- Concrete instance of C8: cursor 1 in a pool of two keys stays valid
after a successful dispatch. -/
def c8run : DispatchResult × GeminiState × List Event :=
  callGeminiWithRotation (fun _ _ => .success "z") ["a", "b"] 3
    ⟨1, [], 0, 0, 0⟩

theorem claim_C8_witness :
    (initState 7).currentKeyIndex = 0 ∧
    c8run.2.1.currentKeyIndex < (["a", "b"] : List String).length :=
  ⟨claim_C8_cursor_invariant.1 7,
   claim_C8_cursor_invariant.2 (fun _ _ => .success "z") ["a", "b"] 3
     ⟨1, [], 0, 0, 0⟩ c8run.1 c8run.2.1 c8run.2.2 (by decide) (by decide) rfl⟩

/-- C9 (implicit): with the global cooldown clear but every key in
individual cooldown, dispatch makes zero attempts (only round-0 skip events
are emitted, one per pool offset), yet still arms the global cooldown to
now + GLOBAL_COOLDOWN and raises QuotaExhaustedError. -/
theorem claim_C9_all_cooldown_global (f : AttemptFn) (keys : List String)
    (maxRounds : Nat) (s : GeminiState)
    (hN : 0 < keys.length) (hmax : 0 < maxRounds)
    (hgc : s.globalCooldownUntil ≤ s.now)
    (hall : ∀ j, j < keys.length →
      s.now < (dictFind s.keyCooldown j).getD 0) :
    callGeminiWithRotation f keys maxRounds s =
      (.quotaExhausted (quotaExhaustedMsg keys.length),
       { s with globalCooldownUntil := s.now + GLOBAL_COOLDOWN },
       (List.range keys.length).map
         (fun a => Event.skipKey ((s.currentKeyIndex + a) % keys.length))) ∧
    ∀ r i, Event.attemptKey r i ∉
      (List.range keys.length).map
        (fun a => Event.skipKey ((s.currentKeyIndex + a) % keys.length)) := by
  constructor
  · have hkeys : keys ≠ [] := by
      intro h0
      rw [h0] at hN
      simp at hN
    rw [callGemini_runs f keys maxRounds s hkeys hgc]
    obtain ⟨mr, rfl⟩ : ∃ mr, maxRounds = mr + 1 := ⟨maxRounds - 1, by omega⟩
    rw [List.range_succ_eq_map]
    exact roundsLoop_all_cooldown f keys.length s hN hall _
  · intro r i hmem
    rw [List.mem_map] at hmem
    obtain ⟨a, -, ha⟩ := hmem
    exact Event.noConfusion ha

/-- Concrete instance of C9: two keys, both in cooldown at entry. -/
theorem claim_C9_witness :
    callGeminiWithRotation (fun _ _ => .success "t") ["a", "b"] 3
        ⟨1, [(0, 50), (1, 70)], 0, 0, 10⟩ =
      (.quotaExhausted (quotaExhaustedMsg (["a", "b"] : List String).length),
       { (⟨1, [(0, 50), (1, 70)], 0, 0, 10⟩ : GeminiState) with
           globalCooldownUntil := 10 + GLOBAL_COOLDOWN },
       (List.range (["a", "b"] : List String).length).map
         (fun a => Event.skipKey ((1 + a) % (["a", "b"] : List String).length))) ∧
    ∀ r i, Event.attemptKey r i ∉
      (List.range (["a", "b"] : List String).length).map
        (fun a => Event.skipKey ((1 + a) % (["a", "b"] : List String).length)) :=
  claim_C9_all_cooldown_global (fun _ _ => .success "t") ["a", "b"] 3
    ⟨1, [(0, 50), (1, 70)], 0, 0, 10⟩ (by decide) (by decide) (by decide)
    (by
      intro j hj
      have hj2 : j < 2 := by simpa using hj
      clear hj
      interval_cases j
      · decide
      · decide)

/-- C10 (implicit): the dispatcher treats an attempt error as rate-limited
exactly by the substring test of app.py:219 — a propagated error never
matches 429 or ResourceExhausted or lowercase quota; a matching error is
absorbed into a per-key cooldown mark instead of propagating; and a
non-matching error from an attempted key is re-raised as the result. -/
theorem claim_C10_rl_classification (f : AttemptFn) (keys : List String)
    (maxRounds : Nat) (s : GeminiState) (res : DispatchResult)
    (s2 : GeminiState) (evts : List Event)
    (h : callGeminiWithRotation f keys maxRounds s = (res, s2, evts)) :
    (∀ m, res = .raised m →
      (strContains m "429" || strContains m "ResourceExhausted" ||
        strContains (lowerString m) "quota") = false) ∧
    (∀ r i m, Event.attemptKey r i ∈ evts → f r i = .failure m →
      (strContains m "429" || strContains m "ResourceExhausted" ||
        strContains (lowerString m) "quota") = true →
      ∃ u, Event.markCooldown i u ∈ evts) ∧
    (∀ r i m, Event.attemptKey r i ∈ evts → f r i = .failure m →
      (strContains m "429" || strContains m "ResourceExhausted" ||
        strContains (lowerString m) "quota") = false →
      res = .raised m) := by
  unfold callGeminiWithRotation at h
  split at h
  · simp only [Prod.mk.injEq] at h
    obtain ⟨rfl, rfl, rfl⟩ := h
    exact ⟨fun m hm => DispatchResult.noConfusion hm,
      fun r i m hi => absurd hi (List.not_mem_nil _),
      fun r i m hi => absurd hi (List.not_mem_nil _)⟩
  · split at h
    · simp only [Prod.mk.injEq] at h
      obtain ⟨rfl, rfl, rfl⟩ := h
      exact ⟨fun m hm => DispatchResult.noConfusion hm,
        fun r i m hi => absurd hi (List.not_mem_nil _),
        fun r i m hi => absurd hi (List.not_mem_nil _)⟩
    · refine ⟨?_, ?_, ?_⟩
      · intro m hm
        exact roundsLoop_raised_rl_false f keys.length
          (List.range maxRounds) s res s2 evts m h hm
      · intro r i m hi hfm hpat
        exact roundsLoop_mark_of_rl f keys.length (List.range maxRounds)
          s res s2 evts r i m h hi hfm hpat
      · intro r i m hi hfm hpat
        exact (roundsLoop_propagate_at f keys.length (List.range maxRounds)
          s res s2 evts r i m h hi hfm hpat).1

/-- Concrete instance of C10: key 0 fails with a message containing 429 and
is marked for cooldown; key 1 fails with boom, which propagates. -/
def c10run : DispatchResult × GeminiState × List Event :=
  callGeminiWithRotation
    (fun _ i => if i = 0 then .failure "429 too many" else .failure "boom")
    ["a", "b"] 3 (initState 0)

theorem claim_C10_witness :
    (∀ m, c10run.1 = .raised m →
      (strContains m "429" || strContains m "ResourceExhausted" ||
        strContains (lowerString m) "quota") = false) ∧
    (∀ r i m, Event.attemptKey r i ∈ c10run.2.2 →
      (fun _ i => if i = 0 then AttemptOutcome.failure "429 too many"
        else AttemptOutcome.failure "boom") r i = .failure m →
      (strContains m "429" || strContains m "ResourceExhausted" ||
        strContains (lowerString m) "quota") = true →
      ∃ u, Event.markCooldown i u ∈ c10run.2.2) ∧
    (∀ r i m, Event.attemptKey r i ∈ c10run.2.2 →
      (fun _ i => if i = 0 then AttemptOutcome.failure "429 too many"
        else AttemptOutcome.failure "boom") r i = .failure m →
      (strContains m "429" || strContains m "ResourceExhausted" ||
        strContains (lowerString m) "quota") = false →
      c10run.1 = .raised m) :=
  claim_C10_rl_classification
    (fun _ i => if i = 0 then .failure "429 too many" else .failure "boom")
    ["a", "b"] 3 (initState 0) c10run.1 c10run.2.1 c10run.2.2 rfl

end BabyBot
